import Mathlib

/-!
# Replication handlers of the gluster node (`gluster_server_repl_handler.go`)

A shallow embedding of the replication handlers and the theorems that settle
the specification's claims about them.

Conventions of the embedding.

* A handler is a function from the node state (and the incoming message) to
  `Option` of the next state and the head of the response it sends.  `none`
  stands for a Go run-time panic (a failed type assertion), which ends the
  handler before any response is sent.
* Everything the network, the clock and the id generator contribute is an
  explicit argument of the handler.
* The retry loops of the phase-2 dispatch take a bound on the iterations that
  are followed; there `none` means that the bound was reached, and the loops
  are shown to end within 3 iterations each.  A run of the leader's catch-up
  is followed as far as the network's answers are given.
* Identifiers are Go `int64` values; they are only compared, never computed
  with, so they are embedded as `Int`.  The `int32` counters of the phase-1
  wait loop are `Int` with explicit wrap-around.
-/

namespace Gluster

set_option linter.unusedVariables false

/-! ## Data model -/

/-- A decoded JSON value as `gjson.DecodeTo` leaves it in an `interface{}`:
`obj` is a Go `map[string]interface{}` (the list gives the pairs in the order
the `range` loop visits them), `arr` is a `[]interface{}`, `num` a number. -/
inductive JVal where
  | null
  | bool (b : Bool)
  | num (n : Int)
  | str (s : String)
  | arr (xs : List JVal)
  | obj (kvs : List (String × JVal))

/-- Modelled from the spec: the message kinds `gMSG_*` (section 4.1) are integer
constants declared outside this file; `other` stands for every remaining
code.  A `LogEntry.Act` holds such a code as well. -/
inductive Head where
  | gMSG_REPL_DATA_SET
  | gMSG_REPL_DATA_REMOVE
  | gMSG_REPL_DATA_UPDATE_CHECK
  | gMSG_REPL_DATA_UNCOMMITED_LOG_ENTRY
  | gMSG_REPL_DATA_APPEND_LOG_ENTRY
  | gMSG_REPL_DATA_INCREMENTAL_UPDATE
  | gMSG_REPL_RESPONSE
  | gMSG_REPL_FAILED
  | other (code : Nat)
  deriving DecidableEq, Repr

/-- Modelled from the spec: the LogEntry of section 3, `{ id, act, items }`.  The
struct is declared outside this file; the handlers use its fields `Id` (an
`int64`), `Act` (a message kind) and `Items` (an `interface{}`). -/
structure LogEntry where
  Id : Int
  Act : Head
  Items : JVal

/-- Modelled from the spec: the StateMap of section 3, a mapping from strings to
strings.  `n.DataMap` is a concurrent map whose type is declared outside this
file; the handlers call its `Set` and `Remove`. -/
abbrev StrMap := String → Option String

/-- The map with no key. -/
def StrMap.empty : StrMap := fun _ => none

/-- The call `DataMap.Set(k, v)`. -/
def StrMap.Set (d : StrMap) (k v : String) : StrMap :=
  fun x => if x = k then some v else d x

/-- The call `DataMap.Remove(k)`. -/
def StrMap.Remove (d : StrMap) (k : String) : StrMap :=
  fun x => if x = k then none else d x

/-- One slot of the expiring cache `n.UncommittedLogs`. -/
structure CacheItem where
  key : String
  value : LogEntry
  ttl : Int

/-- Modelled from the spec: `n.UncommittedLogs` is the PendingLog of section 3, a
map from the decimal string of a log id to an entry with a time to live; its
type is declared outside this file.  The list holds the live slots, at most
one per key; eviction by the cache's timer happens between handler calls. -/
structure Cache where
  items : List CacheItem

/-- The call `UncommittedLogs.Get(key)`; `none` is Go's `nil`. -/
def Cache.Get (c : Cache) (k : String) : Option LogEntry :=
  (c.items.find? fun it => it.key == k).map fun it => it.value

/-- The call `UncommittedLogs.Remove(key)`. -/
def Cache.Remove (c : Cache) (k : String) : Cache :=
  ⟨c.items.filter fun it => it.key != k⟩

/-- The call `UncommittedLogs.Set(key, value, ttl)`: the slot of the key is
replaced. -/
def Cache.Set (c : Cache) (k : String) (v : LogEntry) (ttl : Int) : Cache :=
  ⟨⟨k, v, ttl⟩ :: (c.Remove k).items⟩

/-- The call `UncommittedLogs.Size()`. -/
def Cache.Size (c : Cache) : Nat := c.items.length

/-- Modelled from the spec: the RaftRole of section 3, read through
`getRaftRole`; the constants `gROLE_RAFT_*` are declared outside this file. -/
inductive RaftRole where
  | gROLE_RAFT_FOLLOWER
  | gROLE_RAFT_CANDIDATE
  | gROLE_RAFT_LEADER
  deriving DecidableEq, Repr

/-- Modelled from the spec: the role of a peer (section 3), SERVER or
client-like, as a message envelope announces it. -/
inductive PeerRole where
  | gROLE_SERVER
  | gROLE_CLIENT
  deriving DecidableEq, Repr

/-- Modelled from the spec: the status of a peer (section 3), ALIVE or DEAD. -/
inductive PeerStatus where
  | gSTATUS_ALIVE
  | gSTATUS_DEAD
  deriving DecidableEq, Repr

/-- Modelled from the spec: the NodeInfo of section 3, a record of the peer
registry `n.Peers`, with the fields the handlers read. -/
structure NodeInfo where
  Id : String
  Ip : String
  Role : PeerRole
  Status : PeerStatus
  LastLogId : Int

/-- Modelled from the spec: the envelope `msg.Info` of a message (section 6),
with the fields the handlers read. -/
structure MsgInfo where
  Group : String
  Id : String
  Role : PeerRole
  LastLogId : Int

/-- Modelled from the spec: a message (section 6): head, body and envelope. -/
structure Msg where
  Head : Head
  Body : String
  Info : MsgInfo

/-- Modelled from the spec: the node state of section 3.  The struct `Node` is
declared outside this file; these are the fields the replication handlers
read and write, under the names of their accessors.  `LogList` is the
LogStore; it is filled with `PushFront`, so its head is the entry committed
last. -/
structure Node where
  Id : String
  Role : RaftRole
  MinNode : Int
  Peers : List NodeInfo
  LastLogId : Int
  DataMap : StrMap
  LogList : List LogEntry
  UncommittedLogs : Cache

/-- The three uses of `gjson.DecodeTo` in the handlers, one per target type;
`none` is a decoding error.  The decoder is declared outside this file and is
a parameter of the handlers. -/
structure Codec where
  decodeItems : String → Option JVal
  decodeEntry : String → Option LogEntry
  decodeBatch : String → Option (List LogEntry)

/-- The standard library call `strconv.FormatInt(id, 10)`: the decimal string of
an integer. -/
def FormatInt (id : Int) : String := toString id

/-! ## saveLogEntry -/

/-- The loop `for k, v := range entry.Items.(map[string]interface{})` with
body `n.DataMap.Set(k, v.(string))`; `none` when `v.(string)` panics. -/
def setItems (d : StrMap) : List (String × JVal) → Option StrMap
  | [] => some d
  | (k, JVal.str s) :: rest => setItems (StrMap.Set d k s) rest
  | _ :: _ => none

/-- The loop `for _, v := range entry.Items.([]interface{})` with body
`n.DataMap.Remove(v.(string))`; `none` when `v.(string)` panics. -/
def removeItems (d : StrMap) : List JVal → Option StrMap
  | [] => some d
  | JVal.str s :: rest => removeItems (StrMap.Remove d s) rest
  | _ :: _ => none

/-- The `switch entry.Act` of `saveLogEntry`: `none` when a type assertion on
`entry.Items` or on one of its members panics. -/
def applyItems (d : StrMap) (entry : LogEntry) : Option StrMap :=
  match entry.Act with
  | Head.gMSG_REPL_DATA_SET =>
    match entry.Items with
    | JVal.obj kvs => setItems d kvs
    | _ => none
  | Head.gMSG_REPL_DATA_REMOVE =>
    match entry.Items with
    | JVal.arr xs => removeItems d xs
    | _ => none
  | _ => some d

/-- The method `saveLogEntry`: an entry older than `LastLogId` is dropped
with a warning, any other entry is applied to `DataMap` and its id becomes
`LastLogId`. -/
def saveLogEntry (n : Node) (entry : LogEntry) : Option Node :=
  if entry.Id < n.LastLogId then some n
  else
    match applyItems n.DataMap entry with
    | some d => some { n with DataMap := d, LastLogId := entry.Id }
    | none => none

/-- A SET payload: the JSON object of a string-to-string mapping. -/
def JVal.ofMapping (m : List (String × String)) : JVal :=
  JVal.obj (m.map fun kv => (kv.1, JVal.str kv.2))

/-- A REMOVE payload: the JSON array of a list of keys. -/
def JVal.ofKeys (l : List String) : JVal :=
  JVal.arr (l.map JVal.str)

/-! ## Leader write path -/

/-- Go `int32` arithmetic: the value of an `int32` expression whose exact
result is `x`. -/
def wrap32 (x : Int) : Int := (x + 2147483648) % 4294967296 - 2147483648

/-- What the loads of one iteration of the phase-1 wait loop return, in source
order: `clientok` and `serverok` (line 241), `doneCount` (245), `failCount`
(249), `failCount` twice and `doneCount` (252), and the clock `gtime.Second()`
(255).  The phase-1 goroutines run concurrently with the loop, so two loads of
one counter within an iteration may differ. -/
structure Loads where
  clientok : Int
  serverok : Int
  doneCount : Int
  failCount : Int
  failCount2 : Int
  failCount3 : Int
  doneCount2 : Int
  now : Int

/-- One consistent reading of the four counters and the clock. -/
structure Sample where
  clientok : Int
  serverok : Int
  doneCount : Int
  failCount : Int
  now : Int

/-- The loads of an iteration during which no counter changes. -/
def Loads.ofSample (s : Sample) : Loads :=
  { clientok := s.clientok, serverok := s.serverok, doneCount := s.doneCount,
    failCount := s.failCount, failCount2 := s.failCount, failCount3 := s.failCount,
    doneCount2 := s.doneCount, now := s.now }

/-- How one iteration of the wait loop ends: `break` with `result = true`,
`break` with `result = false`, or sleep and iterate. -/
inductive PollResult where
  | success
  | failure
  | again
  deriving DecidableEq, Repr

/-- The body of `for aliveCount > 0 { ... }` (lines 241 to 258). -/
def pollOnce (aliveCount timeout : Int) (l : Loads) : PollResult :=
  if 0 < l.clientok ∧ 0 < l.serverok then PollResult.success
  else if l.doneCount = aliveCount then PollResult.success
  else if l.failCount = aliveCount then PollResult.failure
  else if 0 < l.failCount2 ∧ wrap32 (l.failCount3 + l.doneCount2) = aliveCount then
    PollResult.failure
  else if timeout ≤ l.now then PollResult.failure
  else PollResult.again

/-- The wait loop for a positive `aliveCount`.  The wall clock advances, so
after the iterations listed in `polls` comes an iteration that finds the
deadline reached: `final` gives its counter loads (its clock reading is at
the deadline). -/
def waitLoop (aliveCount timeout : Int) (final : Loads) : List Loads → Bool
  | [] =>
    match pollOnce aliveCount timeout { final with now := timeout } with
    | PollResult.success => true
    | _ => false
  | l :: rest =>
    match pollOnce aliveCount timeout l with
    | PollResult.success => true
    | PollResult.failure => false
    | PollResult.again => waitLoop aliveCount timeout final rest

/-- What the environment contributes to one call of
`sendUncommittedLogEntryToPeers`: the clock when the deadline is computed and
the loads of the wait loop.  In `polls` and `final` the field `clientok` is
the amount the goroutines have added so far; the other counters start at 0. -/
structure Phase1Env where
  start : Int
  polls : List Loads
  final : Loads

/-- The loads of the variable `clientok`, which starts at `init`. -/
def Loads.preset (init : Int) (l : Loads) : Loads :=
  { l with clientok := wrap32 (init + l.clientok) }

/-- The number of peers with status ALIVE, as the `int32` counter
`aliveCount` holds it after the loop over `n.Peers.Values()`. -/
def countAlive (peers : List NodeInfo) : Int :=
  wrap32 ((peers.filter fun p => p.Status = PeerStatus.gSTATUS_ALIVE).length : Int)

/-- The method `sendUncommittedLogEntryToPeers`.  The entry is only handed to
the goroutines, whose effect on the counters is read from `env`. -/
def sendUncommittedLogEntryToPeers (n : Node) (entry : LogEntry) (clientId : String)
    (env : Phase1Env) : Bool :=
  if n.Peers.length < 1 then
    if n.Role = RaftRole.gROLE_RAFT_LEADER ∧ n.MinNode = 1 then true else false
  else
    let clientok : Int := if clientId = n.Id then 1 else 0
    let aliveCount := countAlive n.Peers
    let timeout := env.start + 3
    if 0 < aliveCount then
      waitLoop aliveCount timeout (env.final.preset clientok)
        (env.polls.map (Loads.preset clientok))
    else false

/-- What the environment contributes to one call of `onMsgReplDataSet`: the
id returned by `n.makeLogId()` and the phase-1 observations. -/
structure ProposeEnv where
  logId : Int
  phase1 : Phase1Env

/-- The method `onMsgReplDataSet` (also the body of `onMsgReplDataRemove`):
the next state and the head passed to `sendMsg`.  The goroutine
`sendAppendLogEntryToPeers` started before the local commit does not touch
the node state. -/
def onMsgReplDataSet (c : Codec) (n : Node) (msg : Msg) (env : ProposeEnv) :
    Option (Node × Head) :=
  if n.Role = RaftRole.gROLE_RAFT_LEADER then
    match c.decodeItems msg.Body with
    | some items =>
      let entry : LogEntry := { Id := env.logId, Act := msg.Head, Items := items }
      if sendUncommittedLogEntryToPeers n entry msg.Info.Id env.phase1 then
        match saveLogEntry { n with LogList := entry :: n.LogList } entry with
        | some n1 => some (n1, Head.gMSG_REPL_RESPONSE)
        | none => none
      else some (n, Head.gMSG_REPL_FAILED)
    | none => some (n, Head.gMSG_REPL_FAILED)
  else some (n, Head.gMSG_REPL_FAILED)

/-- The method `onMsgReplDataRemove`. -/
def onMsgReplDataRemove (c : Codec) (n : Node) (msg : Msg) (env : ProposeEnv) :
    Option (Node × Head) :=
  onMsgReplDataSet c n msg env

/-! ## Phase-2 dispatch -/

/-- What the transport does for one peer during the phase-2 dispatch: whether
the k-th call of `getConn` returns a connection, whether the k-th call of
`sendMsg` returns an error, and what the k-th call of `receiveMsg` returns
(`none` is nil, otherwise the head of the message). -/
structure Net where
  dial : Nat → Bool
  sendErr : Nat → Bool
  recv : Nat → Option Head

/-- The operations a dispatch goroutine has performed so far: calls of
`sendAppendLogEntryToPeer`, of `getConn`, of `sendMsg` and of `receiveMsg`. -/
structure Trace where
  calls : Nat
  dials : Nat
  sends : Nat
  recvs : Nat
  deriving DecidableEq, Repr

/-- The inner loop of `sendAppendLogEntryToPeer` (lines 295 to 307), entered
with the counter `tryMsg`: the final `result`, the final `tryMsg` and the
trace.  The first argument bounds the number of iterations followed; `none`
means the bound was reached before the loop ended. -/
def msgLoop (net : Net) : Nat → Nat → Trace → Option (Bool × Nat × Trace)
  | 0, _, _ => none
  | fuel + 1, tryMsg, t =>
    let t1 : Trace := { t with sends := t.sends + 1 }
    if net.sendErr t.sends then
      let t2 : Trace := { t1 with recvs := t1.recvs + 1 }
      if net.recv t.recvs = some Head.gMSG_REPL_RESPONSE then some (true, tryMsg, t2)
      else if tryMsg + 1 = 3 then some (false, tryMsg + 1, t2)
      else msgLoop net fuel (tryMsg + 1) t2
    else if tryMsg + 1 = 3 then some (false, tryMsg + 1, t1)
    else msgLoop net fuel (tryMsg + 1) t1

/-- The outer loop of `sendAppendLogEntryToPeer` (lines 291 to 317), entered
with the counter `tryConn`: the final `result` and the trace.  `inner` bounds
the inner loop, the next argument the iterations of this one. -/
def connLoop (net : Net) (inner : Nat) : Nat → Nat → Trace → Option (Bool × Trace)
  | 0, _, _ => none
  | fuel + 1, tryConn, t =>
    let t1 : Trace := { t with dials := t.dials + 1 }
    if net.dial t.dials then
      match msgLoop net inner 0 t1 with
      | none => none
      | some (result, tryMsg, t2) =>
        if tryMsg = 3 then some (result, t2)
        else if result then some (result, t2)
        else connLoop net inner fuel tryConn t2
    else if tryConn + 1 = 3 then some (false, t1)
    else connLoop net inner fuel (tryConn + 1) t1

/-- The method `sendAppendLogEntryToPeer`: the value it returns, which is the
constant `false` of line 318 and not `result`, and the trace. -/
def sendAppendLogEntryToPeer (net : Net) (fuel : Nat) (t : Trace) : Option (Bool × Trace) :=
  match connLoop net fuel fuel 0 { t with calls := t.calls + 1 } with
  | some (_, t1) => some (false, t1)
  | none => none

/-- The goroutine started for one peer by `sendAppendLogEntryToPeers` (lines 271
to 283), entered with the counter `try` (here `tryCall`): the trace when the
goroutine ends. -/
def retryLoop (net : Net) (inner : Nat) : Nat → Nat → Trace → Option Trace
  | 0, _, _ => none
  | fuel + 1, tryCall, t =>
    match sendAppendLogEntryToPeer net inner t with
    | none => none
    | some (true, t1) => some t1
    | some (false, t1) =>
      if tryCall + 1 = 3 then some t1
      else retryLoop net inner fuel (tryCall + 1) t1

/-- The method `sendAppendLogEntryToPeers`: one goroutine per peer with status
ALIVE, each with the transport of its peer's address; the result lists the
address and the final trace of every goroutine. -/
def sendAppendLogEntryToPeers (n : Node) (nets : String → Net) (fuel : Nat) :
    List (String × Option Trace) :=
  (n.Peers.filter fun p => p.Status = PeerStatus.gSTATUS_ALIVE).map fun p =>
    (p.Ip, retryLoop (nets p.Ip) fuel fuel 0 ⟨0, 0, 0, 0⟩)

/-! ## Follower receive path -/

/-- The method `onMsgAppendLogEntry`; the body of the message is the cache
key. -/
def onMsgAppendLogEntry (n : Node) (msg : Msg) : Option (Node × Head) :=
  match n.UncommittedLogs.Get msg.Body with
  | some entry =>
    match saveLogEntry { n with LogList := entry :: n.LogList } entry with
    | some n1 =>
      some ({ n1 with UncommittedLogs := n1.UncommittedLogs.Remove msg.Body },
        Head.gMSG_REPL_RESPONSE)
    | none => none
  | none => some (n, Head.gMSG_REPL_RESPONSE)

/-- The method `onMsgUncommittedLogEntry`. -/
def onMsgUncommittedLogEntry (c : Codec) (n : Node) (msg : Msg) : Node × Head :=
  if n.LastLogId = msg.Info.LastLogId then
    match c.decodeEntry msg.Body with
    | some entry =>
      ({ n with UncommittedLogs := n.UncommittedLogs.Set (FormatInt entry.Id) entry 10 },
        Head.gMSG_REPL_RESPONSE)
    | none => (n, Head.gMSG_REPL_FAILED)
  else (n, Head.gMSG_REPL_FAILED)

/-- The method `onMsgDataUpdateCheck`. -/
def onMsgDataUpdateCheck (n : Node) (msg : Msg) : Node × Head :=
  if n.LastLogId < msg.Info.LastLogId ∧ n.UncommittedLogs.Size = 0 then
    (n, Head.gMSG_REPL_RESPONSE)
  else (n, Head.gMSG_REPL_FAILED)

/-! ## Catch-up, follower side -/

/-- The loop of `updateDataFromRemoteNode` pushes `&v`, the address of its range
variable, on `LogList`.  Up to Go 1.21 a `for _, v := range array` loop has
one variable `v`: the pointers pushed by one run of the loop are equal, and
once the loop is over they all read as the element assigned last, the last
element of the array.  From Go 1.22 on every iteration has a variable of its
own.  The embedding takes the reading as a parameter. -/
inductive LoopVar where
  | shared
  | perIteration
  deriving DecidableEq, Repr

/-- The loop `for _, v := range array` of `updateDataFromRemoteNode`, each
pushed pointer read as the entry it pointed to when it was pushed. -/
def batchLoop (n : Node) : List LogEntry → Option Node
  | [] => some n
  | v :: rest =>
    if n.LastLogId < v.Id then
      match saveLogEntry { n with LogList := v :: n.LogList } v with
      | some n1 => batchLoop n1 rest
      | none => none
    else batchLoop n rest

/-- The list as later readers see it: with a shared loop variable the
elements pushed by the loop all read as the last element of the array. -/
def aliasPushed (sem : LoopVar) (old array : List LogEntry) (n1 : Node) : Node :=
  match sem, array.getLast? with
  | LoopVar.shared, some last =>
    { n1 with LogList := List.replicate (n1.LogList.length - old.length) last ++ old }
  | _, _ => n1

/-- The method `updateDataFromRemoteNode`: nothing is done unless the
envelope's `LastLogId` is above the node's; a batch that does not decode is
logged and dropped; otherwise the batch loop runs. -/
def updateDataFromRemoteNode (c : Codec) (sem : LoopVar) (n : Node) (msg : Msg) :
    Option Node :=
  if n.LastLogId < msg.Info.LastLogId then
    match c.decodeBatch msg.Body with
    | none => some n
    | some array =>
      match batchLoop n array with
      | some n1 => some (aliasPushed sem n.LogList array n1)
      | none => none
  else some n

/-- The method `onMsgReplUpdate`: the update, then the response RESPONSE. -/
def onMsgReplUpdate (c : Codec) (sem : LoopVar) (n : Node) (msg : Msg) :
    Option (Node × Head) :=
  match updateDataFromRemoteNode c sem n msg with
  | some n1 => some (n1, Head.gMSG_REPL_RESPONSE)
  | none => none

/-! ## Catch-up, leader side -/

/-- The two readers of the log that `updateDataToRemoteNode` calls; they are
methods of `Node` declared outside this file and are parameters here.  The
spec (section 4.4) names them `is_valid_log_id` and `entries_after`. -/
structure LogReader where
  isValidLogId : Int → Bool
  getLogEntriesByLastLogId : Int → Nat → List LogEntry

/-- What the network does with one `DATA_INCREMENTAL_UPDATE` message: `sendMsg`
returns an error, or `receiveMsg` returns nil, or the peer's reply carries a
`LastLogId` in its envelope. -/
inductive Round where
  | sendFailed
  | noReply
  | reply (lastLogId : Int)

/-- What a run of `updateDataToRemoteNode` has done: the batches it has handed
to `sendMsg`, in order, and whether it has returned.  A run is followed as
far as the list of rounds describes the network; it has not returned when
the list ends at a message whose outcome is not described. -/
structure CatchUp where
  sent : List (List LogEntry)
  returned : Bool

/-- The `for` loop of `updateDataToRemoteNode` (lines 379 to 400), started with
the cursor `logid`; `last` is the leader's `LastLogId`. -/
def catchUpLoop (r : LogReader) (last : Int) : List Round → Int → CatchUp
  | [], logid =>
    let list := r.getLogEntriesByLastLogId logid 10000
    if 0 < list.length then ⟨[list], false⟩ else ⟨[], true⟩
  | round :: rest, logid =>
    let list := r.getLogEntriesByLastLogId logid 10000
    if 0 < list.length then
      match round with
      | Round.sendFailed => ⟨[list], true⟩
      | Round.noReply => ⟨[list], true⟩
      | Round.reply peerLast =>
        if last = peerLast then ⟨[list], true⟩
        else
          let tail := catchUpLoop r last rest peerLast
          ⟨list :: tail.sent, tail.returned⟩
    else ⟨[], true⟩

/-- The method `updateDataToRemoteNode`. -/
def updateDataToRemoteNode (r : LogReader) (n : Node) (info : NodeInfo)
    (rounds : List Round) : CatchUp :=
  let logid := info.LastLogId
  if info.LastLogId < n.LastLogId then
    if logid = 0 ∨ (logid ≠ 0 ∧ r.isValidLogId logid = true) then
      catchUpLoop r n.LastLogId rounds logid
    else ⟨[], true⟩
  else ⟨[], true⟩

/-! ## The specification's reading of the log -/

/-- The pairs of a JSON object read as a string-to-string mapping. -/
def asMappingList : List (String × JVal) → Option (List (String × String))
  | [] => some []
  | (k, JVal.str s) :: rest => (asMappingList rest).map fun m => (k, s) :: m
  | _ :: _ => none

/-- The members of a JSON array read as a sequence of strings. -/
def asKeyList : List JVal → Option (List String)
  | [] => some []
  | JVal.str s :: rest => (asKeyList rest).map fun l => s :: l
  | _ :: _ => none

/-- The SET payload of the data model: a mapping from strings to strings. -/
def JVal.asMapping : JVal → Option (List (String × String))
  | JVal.obj kvs => asMappingList kvs
  | _ => none

/-- The REMOVE payload of the data model: a sequence of strings. -/
def JVal.asKeys : JVal → Option (List String)
  | JVal.arr xs => asKeyList xs
  | _ => none

/-- The value a mapping written as a list of pairs gives to a key (the last
pair of the key, which is its only pair in a Go map). -/
def lookupLast : List (String × String) → String → Option String
  | [], _ => none
  | (k1, v) :: rest, k =>
    match lookupLast rest k with
    | some x => some x
    | none => if k = k1 then some v else none

/-- Spec, "SET merges keys". -/
def specMerge (d : StrMap) (m : List (String × String)) : StrMap :=
  fun k =>
    match lookupLast m k with
    | some v => some v
    | none => d k

/-- Spec, "REMOVE deletes listed keys". -/
def specDelete (d : StrMap) (l : List String) : StrMap :=
  fun k => if k ∈ l then none else d k

/-- Spec: the effect of one entry of the data model on the StateMap; an entry
whose payload does not have the shape of its operation has none. -/
def specApply (d : StrMap) (e : LogEntry) : Option StrMap :=
  match e.Act with
  | Head.gMSG_REPL_DATA_SET => e.Items.asMapping.map (specMerge d)
  | Head.gMSG_REPL_DATA_REMOVE => e.Items.asKeys.map (specDelete d)
  | _ => some d

/-- Spec: the fold of a sequence of entries over a StateMap. -/
def specFold : StrMap → List LogEntry → Option StrMap
  | d, [] => some d
  | d, e :: es =>
    match specApply d e with
    | some d1 => specFold d1 es
    | none => none

/-- Insertion of an entry into a list in ascending id order, behind the
entries of the same id. -/
def insertById (e : LogEntry) : List LogEntry → List LogEntry
  | [] => [e]
  | x :: xs => if e.Id < x.Id then e :: x :: xs else x :: insertById e xs

/-- The entries of `LogList` (newest first) in ascending id order, entries of
one id in commit order. -/
def idOrder : List LogEntry → List LogEntry
  | [] => []
  | e :: older => insertById e (idOrder older)

/-- Invariant 1 of the spec: `StateMap == fold(LogStore by id)`. -/
def FoldInv (n : Node) : Prop :=
  specFold StrMap.empty (idOrder n.LogList) = some n.DataMap

/-- No entry of `LogList` has an id above `LastLogId`. -/
def LogBounded (n : Node) : Prop :=
  ∀ x ∈ n.LogList, x.Id ≤ n.LastLogId

/-- The largest id of a list of entries, 0 for the empty list. -/
def maxLogId : List LogEntry → Int
  | [] => 0
  | [e] => e.Id
  | e :: es => max e.Id (maxLogId es)

/-- Invariant 2 of the spec: the ids of `LogList` increase strictly in commit
order (so they decrease from the head of the list on), and `LastLogId` is
their maximum, 0 for an empty list. -/
def LogInv (n : Node) : Prop :=
  List.Pairwise (fun a b : LogEntry => b.Id < a.Id) n.LogList ∧
    n.LastLogId = maxLogId n.LogList

/-- The entries of a batch that `updateDataFromRemoteNode` takes when it starts
with `LastLogId = last`: those above every id taken before them. -/
def accepted (last : Int) : List LogEntry → List LogEntry
  | [] => []
  | v :: rest => if last < v.Id then v :: accepted v.Id rest else accepted last rest

/-- The payload of an entry has the shape its operation asserts, so that
`saveLogEntry` applies it without a panic. -/
def WellShaped (e : LogEntry) : Prop :=
  (e.Act = Head.gMSG_REPL_DATA_SET → ∃ m, e.Items = JVal.ofMapping m) ∧
    (e.Act = Head.gMSG_REPL_DATA_REMOVE → ∃ l, e.Items = JVal.ofKeys l)

/-- The value of `LastLogId` after the entries of a list have been saved in
turn: the id of the last one, or the given id for the empty list. -/
def lastIdOf (last : Int) : List LogEntry → Int
  | [] => last
  | v :: rest => lastIdOf v.Id rest

/-- The pointers pushed by the batch loop are read back as the entries that
were applied: this is so with a loop variable per iteration, and with a
shared loop variable when every entry taken equals the last element of the
array. -/
def Unaliased (sem : LoopVar) (last : Int) (array : List LogEntry) : Prop :=
  sem = LoopVar.shared → ∀ v ∈ accepted last array, array.getLast? = some v

/-- The values of the Go type `int32`. -/
def IsInt32 (x : Int) : Prop := -2147483648 ≤ x ∧ x ≤ 2147483647

/-- The success conditions of the wait loop as an iteration observes them. -/
def SuccessSeen (aliveCount : Int) (l : Loads) : Prop :=
  (1 ≤ l.clientok ∧ 1 ≤ l.serverok) ∨ l.doneCount = aliveCount

/-- Three calls of `sendAppendLogEntryToPeer` one after the other, each starting
from the trace the one before has left: the trace after the third. -/
def threeCalls (net : Net) (fuel : Nat) (t : Trace) : Option Trace :=
  match sendAppendLogEntryToPeer net fuel t with
  | none => none
  | some (_, t1) =>
    match sendAppendLogEntryToPeer net fuel t1 with
    | none => none
    | some (_, t2) =>
      match sendAppendLogEntryToPeer net fuel t2 with
      | none => none
      | some (_, t3) => some t3

/-! ## Concrete states and messages -/

/-- The SET payload `{"a":"1","b":"2"}`. -/
def itemsAB : JVal := JVal.ofMapping [("a", "1"), ("b", "2")]

/-- The REMOVE payload `["a"]`. -/
def itemsA : JVal := JVal.ofKeys ["a"]

/-- A follower with an empty log. -/
def node0 : Node :=
  { Id := "n1", Role := RaftRole.gROLE_RAFT_FOLLOWER, MinNode := 2, Peers := [],
    LastLogId := 0, DataMap := StrMap.empty, LogList := [],
    UncommittedLogs := ⟨[]⟩ }

/-- The entry `SET {"a":"1","b":"2"}` with id 7. -/
def entrySet7 : LogEntry := ⟨7, Head.gMSG_REPL_DATA_SET, itemsAB⟩

/-- The entry `REMOVE ["a"]` with id 8. -/
def entryRemove8 : LogEntry := ⟨8, Head.gMSG_REPL_DATA_REMOVE, itemsA⟩

/-- The entry `SET {"a":"1"}` with id 5. -/
def entryA5 : LogEntry := ⟨5, Head.gMSG_REPL_DATA_SET, JVal.ofMapping [("a", "1")]⟩

/-- The entry `SET {"b":"2"}` with id 3. -/
def entryB3 : LogEntry := ⟨3, Head.gMSG_REPL_DATA_SET, JVal.ofMapping [("b", "2")]⟩

/-- The envelope of a message from the server `n0` whose `LastLogId` is 5. -/
def info5 : MsgInfo := ⟨"g", "n0", PeerRole.gROLE_SERVER, 5⟩

/-- The message `APPEND_LOG_ENTRY` for the log id 3. -/
def msgAppend3 : Msg := ⟨Head.gMSG_REPL_DATA_APPEND_LOG_ENTRY, "3", info5⟩

/-- A follower that has committed entry 5 (`SET {"a":"1"}`) and still holds
the proposal of entry 3 (`SET {"b":"2"}`) in `UncommittedLogs`. -/
def nodeStale : Node :=
  { Id := "n1", Role := RaftRole.gROLE_RAFT_FOLLOWER, MinNode := 2, Peers := [],
    LastLogId := 5, DataMap := fun k => if k = "a" then some "1" else none,
    LogList := [entryA5], UncommittedLogs := ⟨[⟨"3", entryB3, 10⟩]⟩ }

/-- A leader without peers that runs alone (`min_node == 1`) and has committed
entry 5 (`SET {"a":"1"}`). -/
def leaderAlone : Node :=
  { Id := "n1", Role := RaftRole.gROLE_RAFT_LEADER, MinNode := 1, Peers := [],
    LastLogId := 5, DataMap := fun k => if k = "a" then some "1" else none,
    LogList := [entryA5], UncommittedLogs := ⟨[]⟩ }

/-- A decoder that reads the body `b2` as the object `{"b":"2"}`, the body `1`
as a number, the body `e` as the entry `SET 1` with id 7, and nothing else. -/
def codecB : Codec :=
  { decodeItems := fun body =>
      if body = "b2" then some (JVal.ofMapping [("b", "2")])
      else if body = "1" then some (JVal.num 1) else none,
    decodeEntry := fun body =>
      if body = "e" then some ⟨7, Head.gMSG_REPL_DATA_SET, JVal.num 1⟩ else none,
    decodeBatch := fun _ => none }

/-- The client request `DATA_SET` with body `b2`, sent by the node `n1`
itself. -/
def msgSetB : Msg :=
  ⟨Head.gMSG_REPL_DATA_SET, "b2", ⟨"g", "n1", PeerRole.gROLE_SERVER, 5⟩⟩

/-- Phase-1 observations with no iteration before the deadline. -/
def envQuiet : Phase1Env :=
  { start := 0, polls := [], final := ⟨0, 0, 0, 0, 0, 0, 0, 0⟩ }

/-- The state of `nodeStale` after `APPEND_LOG_ENTRY` for the log id 3: entry 3
is at the head of `LogList`, `DataMap` and `LastLogId` are as before. -/
def nodeStaleAfter : Node :=
  { nodeStale with LogList := [entryB3, entryA5], UncommittedLogs := ⟨[]⟩ }

/-- The state of `leaderAlone` after the request `msgSetB` when `makeLogId`
returns 3: the new entry is in `LogList`, `DataMap` and `LastLogId` are as
before. -/
def leaderAloneAfter : Node :=
  { leaderAlone with LogList := [entryB3, entryA5] }

/-- A follower with an empty log that holds the proposal of entry 7
(`SET {"a":"1","b":"2"}`) in `UncommittedLogs`. -/
def nodePending : Node :=
  { node0 with UncommittedLogs := ⟨[⟨"7", entrySet7, 10⟩]⟩ }

/-- The message `APPEND_LOG_ENTRY` for the log id 7. -/
def msgAppend7 : Msg := ⟨Head.gMSG_REPL_DATA_APPEND_LOG_ENTRY, "7", info5⟩

/-- A reading with one of two live peers acknowledged and none failed. -/
def sampleHalf : Sample := ⟨1, 0, 1, 0, 100⟩

/-- The message `UNCOMMITTED_LOG_ENTRY` with body `e`, from a leader whose
`LastLogId` is 0. -/
def msgProposeE : Msg :=
  ⟨Head.gMSG_REPL_DATA_UNCOMMITED_LOG_ENTRY, "e", ⟨"g", "n0", PeerRole.gROLE_SERVER, 0⟩⟩

/-- The entry `SET` with id 7 whose payload is the number 1. -/
def entryBad7 : LogEntry := ⟨7, Head.gMSG_REPL_DATA_SET, JVal.num 1⟩

/-- The follower `node0` after it has accepted the proposal `msgProposeE`. -/
def nodeBadPending : Node :=
  { node0 with UncommittedLogs := ⟨[⟨"7", entryBad7, 10⟩]⟩ }

/-- The entry `SET {"b":"2"}` with id 7. -/
def entryB7 : LogEntry := ⟨7, Head.gMSG_REPL_DATA_SET, JVal.ofMapping [("b", "2")]⟩

/-- A decoder that reads the body `5,3` as the batch of entry 5
(`SET {"a":"1"}`) followed by entry 3 (`SET {"b":"2"}`), the body `7` as the
batch of entry 7 (`SET {"b":"2"}`), and nothing else. -/
def codecBatch : Codec :=
  { decodeItems := fun _ => none,
    decodeEntry := fun _ => none,
    decodeBatch := fun body =>
      if body = "5,3" then some [entryA5, entryB3]
      else if body = "7" then some [entryB7] else none }

/-- A follower that has committed entry 5 (`SET {"a":"1"}`) and holds no
proposal. -/
def nodeAt5 : Node :=
  { nodeStale with UncommittedLogs := ⟨[]⟩ }

/-- The message `DATA_INCREMENTAL_UPDATE` with the batch of entry 7, from a
sender whose `LastLogId` is 5. -/
def msgBatch7 : Msg := ⟨Head.gMSG_REPL_DATA_INCREMENTAL_UPDATE, "7", info5⟩

/-- The message `DATA_INCREMENTAL_UPDATE` with the batch of entries 5 and 3, from
a sender whose `LastLogId` is 5. -/
def msgBatch53 : Msg := ⟨Head.gMSG_REPL_DATA_INCREMENTAL_UPDATE, "5,3", info5⟩

/-- The message `DATA_INCREMENTAL_UPDATE` with the batch of entries 5 and 3, from
a sender whose `LastLogId` is 9. -/
def msgBatch53From9 : Msg :=
  ⟨Head.gMSG_REPL_DATA_INCREMENTAL_UPDATE, "5,3", ⟨"g", "n0", PeerRole.gROLE_SERVER, 9⟩⟩

/-- The state of `node0` after `msgBatch53` when every pushed pointer keeps its
own entry: entry 5 is applied and listed, entry 3 is skipped. -/
def node0After53 : Node :=
  { node0 with
    LastLogId := 5, DataMap := StrMap.Set StrMap.empty "a" "1", LogList := [entryA5] }

/-- The state of `node0` after `msgBatch53` with a shared loop variable: entry 5
is applied, and the one list element reads as entry 3. -/
def node0After53Shared : Node :=
  { node0 with
    LastLogId := 5, DataMap := StrMap.Set StrMap.empty "a" "1", LogList := [entryB3] }

/-- The state of `leaderAlone` after the request `msgSetB` when `makeLogId`
returns 9. -/
def leaderAloneAfter9 : Node :=
  { leaderAlone with
    LastLogId := 9, DataMap := StrMap.Set leaderAlone.DataMap "b" "2",
    LogList := [⟨9, Head.gMSG_REPL_DATA_SET, JVal.ofMapping [("b", "2")]⟩, entryA5] }

/-- The entry `SET {"a":"1"}` with id 100. -/
def entryA100 : LogEntry := ⟨100, Head.gMSG_REPL_DATA_SET, JVal.ofMapping [("a", "1")]⟩

/-- The entry `SET {"b":"2"}` with id 101. -/
def entryB101 : LogEntry := ⟨101, Head.gMSG_REPL_DATA_SET, JVal.ofMapping [("b", "2")]⟩

/-- A follower with an empty log (`LastLogId` 0) that holds the proposals of
entry 100 (`SET {"a":"1"}`) and entry 101 (`SET {"b":"2"}`). -/
def nodeTwoPending : Node :=
  { node0 with UncommittedLogs := ⟨[⟨"101", entryB101, 10⟩, ⟨"100", entryA100, 10⟩]⟩ }

/-- The message `APPEND_LOG_ENTRY` for the log id 100. -/
def msgAppend100 : Msg := ⟨Head.gMSG_REPL_DATA_APPEND_LOG_ENTRY, "100", info5⟩

/-- The message `APPEND_LOG_ENTRY` for the log id 101. -/
def msgAppend101 : Msg := ⟨Head.gMSG_REPL_DATA_APPEND_LOG_ENTRY, "101", info5⟩

/-- The state of `nodeTwoPending` after `APPEND_LOG_ENTRY` for 101: entry 101 is
applied and `LastLogId` is 101. -/
def nodeAfter101 : Node :=
  { node0 with
    LastLogId := 101, DataMap := StrMap.Set StrMap.empty "b" "2",
    LogList := [entryB101], UncommittedLogs := ⟨[⟨"100", entryA100, 10⟩]⟩ }

/-- The state of `nodeAfter101` after `APPEND_LOG_ENTRY` for 100: entry 100 is on
`LogList`, `DataMap` and `LastLogId` are as after entry 101 alone. -/
def nodeAfter101Then100 : Node :=
  { node0 with
    LastLogId := 101, DataMap := StrMap.Set StrMap.empty "b" "2",
    LogList := [entryA100, entryB101], UncommittedLogs := ⟨[]⟩ }

/-- A leader that requires two nodes (`min_node == 2`), has committed entry 5
and knows two peers, both DEAD. -/
def leaderDeadPeers : Node :=
  { leaderAlone with
    MinNode := 2,
    Peers := [⟨"B", "10.0.0.2", PeerRole.gROLE_SERVER, PeerStatus.gSTATUS_DEAD, 5⟩,
      ⟨"C", "10.0.0.3", PeerRole.gROLE_SERVER, PeerStatus.gSTATUS_DEAD, 5⟩] }

/-- The message `DATA_UPDATE_CHECK` from a sender whose `LastLogId` is 5. -/
def msgCheck5 : Msg := ⟨Head.gMSG_REPL_DATA_UPDATE_CHECK, "", info5⟩

/-- The client request `DATA_SET` with body `1`, sent by the node `n1` itself. -/
def msgSetOne : Msg :=
  ⟨Head.gMSG_REPL_DATA_SET, "1", ⟨"g", "n1", PeerRole.gROLE_SERVER, 5⟩⟩

/-- A reader of the log of `nodeAt5`: the id 5 is valid (and 0), and the
entries after an id below 5 are entry 5. -/
def readerAt5 : LogReader :=
  { isValidLogId := fun id => decide (id = 0 ∨ id = 5),
    getLogEntriesByLastLogId := fun id _ => if id < 5 then [entryA5] else [] }

/-- A peer record with the given `LastLogId`. -/
def peerAt (last : Int) : NodeInfo :=
  ⟨"B", "10.0.0.2", PeerRole.gROLE_SERVER, PeerStatus.gSTATUS_ALIVE, last⟩

/-- A transport on which every dial fails. -/
def netDown : Net :=
  { dial := fun _ => false, sendErr := fun _ => true, recv := fun _ => none }

/-- A transport on which every dial and every send succeeds and the peer
answers RESPONSE. -/
def netUp : Net :=
  { dial := fun _ => true, sendErr := fun _ => false,
    recv := fun _ => some Head.gMSG_REPL_RESPONSE }

/-- A transport on which every dial succeeds, every `sendMsg` returns an error
and `receiveMsg` nevertheless returns a RESPONSE. -/
def netErrReply : Net :=
  { dial := fun _ => true, sendErr := fun _ => true,
    recv := fun _ => some Head.gMSG_REPL_RESPONSE }

/-- The trace of a goroutine that has done nothing yet. -/
def trace0 : Trace := ⟨0, 0, 0, 0⟩

/-- The entry `SET {"c":"3"}` with id 9. -/
def entryC9 : LogEntry := ⟨9, Head.gMSG_REPL_DATA_SET, JVal.ofMapping [("c", "3")]⟩

/-- A decoder that reads the body `7,9` as the batch of entry 7
(`SET {"b":"2"}`) followed by entry 9 (`SET {"c":"3"}`), and nothing else. -/
def codecBatch79 : Codec :=
  { decodeItems := fun _ => none,
    decodeEntry := fun _ => none,
    decodeBatch := fun body => if body = "7,9" then some [entryB7, entryC9] else none }

/-- The message `DATA_INCREMENTAL_UPDATE` with the batch of entries 7 and 9, from
a sender whose `LastLogId` is 9. -/
def msgBatch79 : Msg :=
  ⟨Head.gMSG_REPL_DATA_INCREMENTAL_UPDATE, "7,9", ⟨"g", "n0", PeerRole.gROLE_SERVER, 9⟩⟩

/-- The state of `nodeAt5` after `msgBatch79` when every pushed pointer keeps its
own entry: entries 7 and 9 are applied and listed. -/
def nodeAt5After79 : Node :=
  { nodeAt5 with
    LastLogId := 9,
    DataMap := StrMap.Set (StrMap.Set nodeAt5.DataMap "b" "2") "c" "3",
    LogList := [entryC9, entryB7, entryA5] }

/-- The state of `nodeAt5` after `msgBatch79` with a shared loop variable:
entries 7 and 9 are applied, and both new list elements read as entry 9. -/
def nodeAt5After79Shared : Node :=
  { nodeAt5 with
    LastLogId := 9,
    DataMap := StrMap.Set (StrMap.Set nodeAt5.DataMap "b" "2") "c" "3",
    LogList := [entryC9, entryC9, entryA5] }

/-- A leader `n1` that requires two nodes and knows two peers, both ALIVE
servers. -/
def leaderTwoAlive : Node :=
  { leaderAlone with
    MinNode := 2,
    Peers := [⟨"B", "10.0.0.2", PeerRole.gROLE_SERVER, PeerStatus.gSTATUS_ALIVE, 5⟩,
      ⟨"C", "10.0.0.3", PeerRole.gROLE_SERVER, PeerStatus.gSTATUS_ALIVE, 5⟩] }

/-- Phase-1 observations, started at second 0: the first iteration sees no
answer yet, the second sees one acknowledgement of a server. -/
def envAckSecond : Phase1Env :=
  { start := 0,
    polls := [⟨0, 0, 0, 0, 0, 0, 0, 1⟩, ⟨0, 1, 1, 0, 0, 0, 0, 1⟩],
    final := ⟨0, 0, 0, 0, 0, 0, 0, 0⟩ }

/-- Phase-1 observations, started at second 0: the first iteration sees one
acknowledgement of a peer that is not a server and one failure. -/
def envOneFailed : Phase1Env :=
  { start := 0,
    polls := [⟨0, 0, 1, 1, 1, 1, 1, 1⟩],
    final := ⟨0, 0, 0, 0, 0, 0, 0, 0⟩ }

/-! ## Lemmas on the payload loops -/

theorem setItems_ofMapping (m : List (String × String)) (d : StrMap) :
    setItems d (m.map fun kv => (kv.1, JVal.str kv.2)) = some (specMerge d m) := by
  induction m generalizing d with
  | nil =>
    simp only [List.map_nil, setItems]
    congr 1
  | cons kv rest ih =>
    obtain ⟨k, v⟩ := kv
    simp only [List.map_cons, setItems, ih]
    congr 1
    funext x
    simp only [specMerge, lookupLast, StrMap.Set]
    cases lookupLast rest x with
    | some y => rfl
    | none => by_cases hx : x = k <;> simp [hx]

theorem removeItems_ofKeys (l : List String) (d : StrMap) :
    removeItems d (l.map JVal.str) = some (specDelete d l) := by
  induction l generalizing d with
  | nil =>
    simp only [List.map_nil, removeItems]
    congr 1
  | cons k rest ih =>
    simp only [List.map_cons, removeItems, ih]
    congr 1
    funext x
    simp only [specDelete, StrMap.Remove, List.mem_cons]
    by_cases h1 : x = k <;> by_cases h2 : x ∈ rest <;> simp [h1, h2]

theorem lookupLast_of_not_mem (m : List (String × String)) (k : String)
    (h : k ∉ m.map Prod.fst) : lookupLast m k = none := by
  induction m with
  | nil => rfl
  | cons kv rest ih =>
    obtain ⟨k1, v⟩ := kv
    simp only [List.map_cons, List.mem_cons, not_or] at h
    simp [lookupLast, ih h.2, h.1]

theorem lookupLast_of_mem (m : List (String × String)) (k v : String)
    (hnd : (m.map Prod.fst).Nodup) (h : (k, v) ∈ m) : lookupLast m k = some v := by
  induction m with
  | nil => simp at h
  | cons kv rest ih =>
    obtain ⟨k1, v1⟩ := kv
    simp only [List.map_cons, List.nodup_cons] at hnd
    rcases List.mem_cons.1 h with h1 | h1
    · obtain ⟨rfl, rfl⟩ := Prod.mk.inj h1
      simp [lookupLast, lookupLast_of_not_mem rest k hnd.1]
    · simp [lookupLast, ih hnd.2 h1]

theorem saveLogEntry_set (n : Node) (i : Int) (m : List (String × String))
    (h : n.LastLogId ≤ i) :
    saveLogEntry n ⟨i, Head.gMSG_REPL_DATA_SET, JVal.ofMapping m⟩ =
      some { n with DataMap := specMerge n.DataMap m, LastLogId := i } := by
  simp [saveLogEntry, not_lt.2 h, applyItems, JVal.ofMapping, setItems_ofMapping]

theorem saveLogEntry_remove (n : Node) (i : Int) (l : List String)
    (h : n.LastLogId ≤ i) :
    saveLogEntry n ⟨i, Head.gMSG_REPL_DATA_REMOVE, JVal.ofKeys l⟩ =
      some { n with DataMap := specDelete n.DataMap l, LastLogId := i } := by
  simp [saveLogEntry, not_lt.2 h, applyItems, JVal.ofKeys, removeItems_ofKeys]

/-! ## Claims on saveLogEntry -/

/-- C1: for an entry whose id is at least `LastLogId`, `saveLogEntry` with a SET
of a mapping `m` makes `DataMap` map every key of `m` to the value `m` gives it
and leaves every other key as it was; with a REMOVE of a key list `l` it makes
every key of `l` absent and leaves every other key as it was; in both cases
`LastLogId` becomes the id of the entry and the rest of the state is kept.
`SET {a:1,b:2}` followed by `REMOVE [a]` on an empty `DataMap` leaves exactly
`{b:2}`. -/
theorem C1_saveLogEntry_applies (n : Node) (i : Int) (h : n.LastLogId ≤ i) :
    (∀ m : List (String × String), (m.map Prod.fst).Nodup →
      ∃ n1, saveLogEntry n ⟨i, Head.gMSG_REPL_DATA_SET, JVal.ofMapping m⟩ = some n1 ∧
        (∀ k v, (k, v) ∈ m → n1.DataMap k = some v) ∧
        (∀ k, k ∉ m.map Prod.fst → n1.DataMap k = n.DataMap k) ∧
        n1.LastLogId = i ∧ n1.LogList = n.LogList ∧
        n1.UncommittedLogs = n.UncommittedLogs) ∧
    (∀ l : List String,
      ∃ n1, saveLogEntry n ⟨i, Head.gMSG_REPL_DATA_REMOVE, JVal.ofKeys l⟩ = some n1 ∧
        (∀ k, k ∈ l → n1.DataMap k = none) ∧
        (∀ k, k ∉ l → n1.DataMap k = n.DataMap k) ∧
        n1.LastLogId = i ∧ n1.LogList = n.LogList ∧
        n1.UncommittedLogs = n.UncommittedLogs) ∧
    (n.DataMap = StrMap.empty → ∀ j : Int, i ≤ j →
      ∃ n1 n2, saveLogEntry n ⟨i, Head.gMSG_REPL_DATA_SET, itemsAB⟩ = some n1 ∧
        saveLogEntry n1 ⟨j, Head.gMSG_REPL_DATA_REMOVE, itemsA⟩ = some n2 ∧
        n2.DataMap = (fun k => if k = "b" then some "2" else none) ∧
        n2.LastLogId = j) := by
  refine ⟨?_, ?_, ?_⟩
  · intro m hnd
    refine ⟨_, saveLogEntry_set n i m h, ?_, ?_, rfl, rfl, rfl⟩
    · intro k v hkv
      simp [specMerge, lookupLast_of_mem m k v hnd hkv]
    · intro k hk
      simp [specMerge, lookupLast_of_not_mem m k hk]
  · intro l
    refine ⟨_, saveLogEntry_remove n i l h, ?_, ?_, rfl, rfl, rfl⟩
    · intro k hk
      simp [specDelete, hk]
    · intro k hk
      simp [specDelete, hk]
  · intro hd j hij
    refine ⟨_, _, saveLogEntry_set n i _ h, saveLogEntry_remove _ j _ hij, ?_, rfl⟩
    funext k
    simp only [specDelete, specMerge, lookupLast, hd, StrMap.empty, List.mem_singleton]
    by_cases ha : k = "a"
    · subst ha; simp
    · by_cases hb : k = "b"
      · subst hb; simp
      · simp [ha, hb]

/-- C1 at a concrete input: `SET {a:1,b:2}` with id 7 and then `REMOVE [a]` with
id 8 on the empty follower `node0`. -/
theorem C1_saveLogEntry_applies_witness :
    ∃ n1 n2, saveLogEntry node0 entrySet7 = some n1 ∧
      saveLogEntry n1 entryRemove8 = some n2 ∧
      n2.DataMap = (fun k => if k = "b" then some "2" else none) ∧
      n2.LastLogId = 8 :=
  (C1_saveLogEntry_applies node0 7 (by decide)).2.2 rfl 8 (by decide)

/-- C2: an entry whose id is strictly below `LastLogId` is rejected by
`saveLogEntry`, whatever its payload: the call returns the state it was given,
so `DataMap` and `LastLogId` (and every other field) are as before. -/
theorem C2_saveLogEntry_rejects_stale (n : Node) (entry : LogEntry)
    (h : entry.Id < n.LastLogId) :
    saveLogEntry n entry = some n := by
  simp [saveLogEntry, h]

/-- C2 at a concrete input: an entry with id 3 and an ill-shaped payload, given
to a node whose `LastLogId` is 5. -/
theorem C2_saveLogEntry_rejects_stale_witness :
    saveLogEntry { node0 with LastLogId := 5 } ⟨3, Head.gMSG_REPL_DATA_SET, JVal.num 1⟩ =
      some { node0 with LastLogId := 5 } :=
  C2_saveLogEntry_rejects_stale { node0 with LastLogId := 5 }
    ⟨3, Head.gMSG_REPL_DATA_SET, JVal.num 1⟩ (by decide)

/-! ## The switch of saveLogEntry against the SET/REMOVE semantics -/

theorem setItems_eq_spec (kvs : List (String × JVal)) (d : StrMap) :
    setItems d kvs = (asMappingList kvs).map (specMerge d) := by
  induction kvs generalizing d with
  | nil =>
    simp only [setItems, asMappingList, Option.map_some']
    congr 1
  | cons kv rest ih =>
    obtain ⟨k, j⟩ := kv
    cases j with
    | str s =>
      simp only [setItems, asMappingList, ih, Option.map_map]
      congr 1
      funext m x
      simp only [Function.comp, specMerge, lookupLast, StrMap.Set]
      cases lookupLast m x with
      | some y => rfl
      | none => by_cases hx : x = k <;> simp [hx]
    | _ => simp [setItems, asMappingList]

theorem removeItems_eq_spec (xs : List JVal) (d : StrMap) :
    removeItems d xs = (asKeyList xs).map (specDelete d) := by
  induction xs generalizing d with
  | nil =>
    simp only [removeItems, asKeyList, Option.map_some']
    congr 1
  | cons j rest ih =>
    cases j with
    | str s =>
      simp only [removeItems, asKeyList, ih, Option.map_map]
      congr 1
      funext l x
      simp only [Function.comp, specDelete, StrMap.Remove, List.mem_cons]
      by_cases h1 : x = s <;> by_cases h2 : x ∈ l <;> simp [h1, h2]
    | _ => simp [removeItems, asKeyList]

theorem applyItems_eq_spec (d : StrMap) (e : LogEntry) :
    applyItems d e = specApply d e := by
  unfold applyItems specApply
  split
  · cases h : e.Items <;> simp [JVal.asMapping, setItems_eq_spec]
  · cases h : e.Items <;> simp [JVal.asKeys, removeItems_eq_spec]
  · rfl

theorem applyItems_of_wellShaped (d : StrMap) (e : LogEntry) (h : WellShaped e) :
    ∃ d1, applyItems d e = some d1 := by
  unfold applyItems
  split
  · next hact =>
    obtain ⟨m, hm⟩ := h.1 hact
    exact ⟨_, by rw [hm]; exact setItems_ofMapping m d⟩
  · next hact =>
    obtain ⟨l, hl⟩ := h.2 hact
    exact ⟨_, by rw [hl]; exact removeItems_ofKeys l d⟩
  · exact ⟨d, rfl⟩

theorem saveLogEntry_of_wellShaped (n : Node) (e : LogEntry) (h : WellShaped e) :
    ∃ n1, saveLogEntry n e = some n1 := by
  unfold saveLogEntry
  split
  · exact ⟨n, rfl⟩
  · obtain ⟨d1, hd⟩ := applyItems_of_wellShaped n.DataMap e h
    exact ⟨_, by rw [hd]⟩

theorem saveLogEntry_fresh (n n1 : Node) (e : LogEntry) (hid : n.LastLogId ≤ e.Id)
    (h : saveLogEntry n e = some n1) :
    ∃ d, specApply n.DataMap e = some d ∧
      n1 = { n with DataMap := d, LastLogId := e.Id } := by
  unfold saveLogEntry at h
  rw [if_neg (not_lt.2 hid), applyItems_eq_spec] at h
  cases hd : specApply n.DataMap e with
  | none => rw [hd] at h; exact absurd h (by simp)
  | some d =>
    rw [hd] at h
    exact ⟨d, rfl, (Option.some.inj h).symm⟩

/-! ## The log in id order -/

theorem insertById_of_le (e : LogEntry) (ys : List LogEntry)
    (h : ∀ y ∈ ys, y.Id ≤ e.Id) : insertById e ys = ys ++ [e] := by
  induction ys with
  | nil => rfl
  | cons y rest ih =>
    have hy : ¬ e.Id < y.Id := not_lt.2 (h y (List.mem_cons_self _ _))
    simp only [insertById, if_neg hy, List.cons_append]
    rw [ih (fun z hz => h z (List.mem_cons_of_mem _ hz))]

theorem mem_insertById (e x : LogEntry) (ys : List LogEntry) :
    x ∈ insertById e ys ↔ x = e ∨ x ∈ ys := by
  induction ys with
  | nil => simp [insertById]
  | cons y rest ih =>
    simp only [insertById]
    split
    · simp
    · simp only [List.mem_cons, ih]
      tauto

theorem mem_idOrder (x : LogEntry) (l : List LogEntry) : x ∈ idOrder l ↔ x ∈ l := by
  induction l with
  | nil => simp [idOrder]
  | cons e rest ih => simp [idOrder, mem_insertById, ih]

theorem insertById_perm (e : LogEntry) (ys : List LogEntry) :
    (insertById e ys).Perm (e :: ys) := by
  induction ys with
  | nil => exact List.Perm.refl _
  | cons y rest ih =>
    simp only [insertById]
    split
    · exact List.Perm.refl _
    · exact (List.Perm.cons y ih).trans (List.Perm.swap e y rest)

/-- The list `idOrder l` holds the entries of `l`, each as often as `l`. -/
theorem idOrder_perm (l : List LogEntry) : (idOrder l).Perm l := by
  induction l with
  | nil => exact List.Perm.refl _
  | cons e rest ih =>
    simp only [idOrder]
    exact (insertById_perm e _).trans (List.Perm.cons e ih)

theorem insertById_sorted (e : LogEntry) (ys : List LogEntry)
    (h : ys.Pairwise fun a b => a.Id ≤ b.Id) :
    (insertById e ys).Pairwise fun a b => a.Id ≤ b.Id := by
  induction ys with
  | nil => simp [insertById]
  | cons y rest ih =>
    obtain ⟨hy, hrest⟩ := List.pairwise_cons.1 h
    simp only [insertById]
    split
    · next hlt =>
      refine List.pairwise_cons.2 ⟨?_, h⟩
      intro z hz
      rcases List.mem_cons.1 hz with rfl | hz
      · exact le_of_lt hlt
      · exact le_trans (le_of_lt hlt) (hy z hz)
    · next hge =>
      refine List.pairwise_cons.2 ⟨?_, ih hrest⟩
      intro z hz
      rcases (mem_insertById e z rest).1 hz with rfl | hz
      · exact not_lt.1 hge
      · exact hy z hz

/-- The list `idOrder l` is in ascending id order. -/
theorem idOrder_sorted (l : List LogEntry) :
    (idOrder l).Pairwise fun a b => a.Id ≤ b.Id := by
  induction l with
  | nil => simp [idOrder]
  | cons e rest ih =>
    simp only [idOrder]
    exact insertById_sorted e _ ih

theorem specFold_append (d : StrMap) (xs : List LogEntry) (e : LogEntry) :
    specFold d (xs ++ [e]) =
      match specFold d xs with
      | some d1 => specApply d1 e
      | none => none := by
  induction xs generalizing d with
  | nil =>
    simp only [List.nil_append, specFold]
    cases specApply d e <;> rfl
  | cons x rest ih =>
    simp only [List.cons_append, specFold]
    cases specApply d x with
    | none => rfl
    | some d1 => exact ih d1

theorem idOrder_push (e : LogEntry) (l : List LogEntry) (h : ∀ x ∈ l, x.Id ≤ e.Id) :
    idOrder (e :: l) = idOrder l ++ [e] := by
  simp only [idOrder]
  exact insertById_of_le e _ (fun y hy => h y ((mem_idOrder y l).1 hy))

/-- Pushing an entry that is at or above `LastLogId` and saving it keeps the
fold equality and the bound on the ids of the list. -/
theorem push_save_inv (n n1 : Node) (e : LogEntry) (hf : FoldInv n) (hb : LogBounded n)
    (hid : n.LastLogId ≤ e.Id)
    (h : saveLogEntry { n with LogList := e :: n.LogList } e = some n1) :
    FoldInv n1 ∧ LogBounded n1 ∧ n1.LogList = e :: n.LogList ∧ n1.LastLogId = e.Id ∧
      n1.UncommittedLogs = n.UncommittedLogs := by
  obtain ⟨d, hd, rfl⟩ :=
    saveLogEntry_fresh { n with LogList := e :: n.LogList } n1 e hid h
  have hle : ∀ x ∈ n.LogList, x.Id ≤ e.Id := fun x hx => le_trans (hb x hx) hid
  refine ⟨?_, ?_, rfl, rfl, rfl⟩
  · unfold FoldInv at hf ⊢
    show specFold StrMap.empty (idOrder (e :: n.LogList)) = some d
    rw [idOrder_push e _ hle, specFold_append, hf]
    exact hd
  · intro x hx
    rcases List.mem_cons.1 hx with rfl | hx
    · exact le_refl _
    · exact hle x hx

/-! ## The batch loop of updateDataFromRemoteNode -/

theorem batchLoop_inv (array : List LogEntry) (n n1 : Node) (hf : FoldInv n)
    (hb : LogBounded n) (h : batchLoop n array = some n1) :
    FoldInv n1 ∧ LogBounded n1 := by
  induction array generalizing n with
  | nil =>
    simp only [batchLoop, Option.some.injEq] at h
    subst h
    exact ⟨hf, hb⟩
  | cons v rest ih =>
    simp only [batchLoop] at h
    split at h
    · next hlt =>
      cases hs : saveLogEntry { n with LogList := v :: n.LogList } v with
      | none => rw [hs] at h; exact absurd h (by simp)
      | some n2 =>
        rw [hs] at h
        obtain ⟨hf2, hb2, -⟩ := push_save_inv n n2 v hf hb (le_of_lt hlt) hs
        exact ih n2 hf2 hb2 h
    · exact ih n hf hb h

theorem batchLoop_spec (array : List LogEntry) (n n1 : Node)
    (h : batchLoop n array = some n1) :
    n1.LogList = (accepted n.LastLogId array).reverse ++ n.LogList ∧
      specFold n.DataMap (accepted n.LastLogId array) = some n1.DataMap ∧
      n1.LastLogId = lastIdOf n.LastLogId (accepted n.LastLogId array) ∧
      n1.UncommittedLogs = n.UncommittedLogs := by
  induction array generalizing n with
  | nil =>
    simp only [batchLoop, Option.some.injEq] at h
    subst h
    simp [accepted, specFold, lastIdOf]
  | cons v rest ih =>
    simp only [batchLoop] at h
    split at h
    · next hlt =>
      cases hs : saveLogEntry { n with LogList := v :: n.LogList } v with
      | none => rw [hs] at h; exact absurd h (by simp)
      | some n2 =>
        rw [hs] at h
        obtain ⟨d, hd, rfl⟩ :=
          saveLogEntry_fresh { n with LogList := v :: n.LogList } n2 v (le_of_lt hlt) hs
        obtain ⟨h1, h2, h3, h4⟩ := ih _ h
        simp only [accepted, if_pos hlt, List.reverse_cons, List.append_assoc,
          List.singleton_append, specFold, lastIdOf]
        simp only at hd
        rw [hd]
        exact ⟨h1, h2, h3, h4⟩
    · next hlt =>
      simp only [accepted, if_neg hlt]
      exact ih n h

theorem batchLoop_of_wellShaped (array : List LogEntry) (n : Node)
    (h : ∀ v ∈ array, WellShaped v) : ∃ n1, batchLoop n array = some n1 := by
  induction array generalizing n with
  | nil => exact ⟨n, rfl⟩
  | cons v rest ih =>
    have hrest : ∀ w ∈ rest, WellShaped w := fun w hw => h w (List.mem_cons_of_mem _ hw)
    simp only [batchLoop]
    split
    · obtain ⟨n2, hs⟩ :=
        saveLogEntry_of_wellShaped { n with LogList := v :: n.LogList } v
          (h v (List.mem_cons_self _ _))
      rw [hs]
      exact ih n2 hrest
    · exact ih n hrest

theorem aliasPushed_eq (sem : LoopVar) (old array acc : List LogEntry) (n1 : Node)
    (hlist : n1.LogList = acc.reverse ++ old)
    (hun : sem = LoopVar.shared → ∀ v ∈ acc, array.getLast? = some v) :
    aliasPushed sem old array n1 = n1 := by
  unfold aliasPushed
  split
  · next last hlast =>
    have hall : ∀ v ∈ acc.reverse, v = last := by
      intro v hv
      have := hun rfl v (List.mem_reverse.1 hv)
      rw [hlast] at this
      exact (Option.some.inj this).symm
    have hrep : List.replicate (n1.LogList.length - old.length) last = acc.reverse := by
      rw [hlist, List.length_append, Nat.add_sub_cancel]
      exact (List.eq_replicate_of_mem hall).symm
    rw [hrep, ← hlist]
  · rfl

/-! ## Claim on the fold invariant -/

theorem onMsgReplDataSet_cases (c : Codec) (n : Node) (msg : Msg) (env : ProposeEnv)
    (n1 : Node) (r : Head) (h : onMsgReplDataSet c n msg env = some (n1, r)) :
    (r = Head.gMSG_REPL_FAILED ∧ n1 = n ∧
      ¬ (n.Role = RaftRole.gROLE_RAFT_LEADER ∧
        ∃ items, c.decodeItems msg.Body = some items ∧
          sendUncommittedLogEntryToPeers n ⟨env.logId, msg.Head, items⟩ msg.Info.Id
            env.phase1 = true)) ∨
    (r = Head.gMSG_REPL_RESPONSE ∧ n.Role = RaftRole.gROLE_RAFT_LEADER ∧
      ∃ items, c.decodeItems msg.Body = some items ∧
        sendUncommittedLogEntryToPeers n ⟨env.logId, msg.Head, items⟩ msg.Info.Id
          env.phase1 = true ∧
        saveLogEntry { n with LogList := ⟨env.logId, msg.Head, items⟩ :: n.LogList }
          ⟨env.logId, msg.Head, items⟩ = some n1) := by
  unfold onMsgReplDataSet at h
  by_cases hrole : n.Role = RaftRole.gROLE_RAFT_LEADER
  · rw [if_pos hrole] at h
    cases hdec : c.decodeItems msg.Body with
    | none =>
      rw [hdec] at h
      simp only [Option.some.injEq, Prod.mk.injEq] at h
      exact Or.inl ⟨h.2.symm, h.1.symm, fun hc => by
        obtain ⟨-, items, hi, -⟩ := hc
        exact absurd hi (by simp)⟩
    | some items =>
      rw [hdec] at h
      simp only at h
      by_cases hq : sendUncommittedLogEntryToPeers n ⟨env.logId, msg.Head, items⟩
          msg.Info.Id env.phase1 = true
      · rw [if_pos hq] at h
        cases hs : saveLogEntry
            { n with LogList := ⟨env.logId, msg.Head, items⟩ :: n.LogList }
            ⟨env.logId, msg.Head, items⟩ with
        | none => rw [hs] at h; exact absurd h (by simp)
        | some n2 =>
          rw [hs] at h
          simp only [Option.some.injEq, Prod.mk.injEq] at h
          exact Or.inr ⟨h.2.symm, hrole, items, rfl, hq, by rw [← h.1]; exact hs⟩
      · rw [if_neg hq] at h
        simp only [Option.some.injEq, Prod.mk.injEq] at h
        exact Or.inl ⟨h.2.symm, h.1.symm, fun hc => by
          obtain ⟨-, items2, hi, hq2⟩ := hc
          obtain rfl := Option.some.inj hi
          exact hq hq2⟩
  · rw [if_neg hrole] at h
    simp only [Option.some.injEq, Prod.mk.injEq] at h
    exact Or.inl ⟨h.2.symm, h.1.symm, fun hc => hrole hc.1⟩

/-- Where the fold invariant is kept: the fold equality together with the bound
"no id of `LogList` exceeds `LastLogId`" is kept by the commit paths that
commit at or above `LastLogId`.  In every state where both hold, both hold
again (a) after
`onMsgReplDataSet` when the new log id is at least `LastLogId`, (b) after
`onMsgAppendLogEntry` for an entry found in `UncommittedLogs` whose id is at
least `LastLogId`, and (c) after `updateDataFromRemoteNode` for a decodable
batch whose pushed list elements read back as the entries applied; and each
handler completes when the payloads have the shape their act asserts. -/
theorem foldInv_kept (c : Codec) (sem : LoopVar) (n : Node) (msg : Msg)
    (hf : FoldInv n) (hb : LogBounded n) :
    (∀ env n1 r, n.LastLogId ≤ env.logId →
      onMsgReplDataSet c n msg env = some (n1, r) → FoldInv n1 ∧ LogBounded n1) ∧
    (∀ e n1 r, n.UncommittedLogs.Get msg.Body = some e → n.LastLogId ≤ e.Id →
      onMsgAppendLogEntry n msg = some (n1, r) → FoldInv n1 ∧ LogBounded n1) ∧
    (∀ array n1, c.decodeBatch msg.Body = some array →
      Unaliased sem n.LastLogId array →
      updateDataFromRemoteNode c sem n msg = some n1 → FoldInv n1 ∧ LogBounded n1) ∧
    (∀ env, (∀ items, c.decodeItems msg.Body = some items →
        WellShaped ⟨env.logId, msg.Head, items⟩) →
      ∃ n1 r, onMsgReplDataSet c n msg env = some (n1, r)) ∧
    (∀ e, n.UncommittedLogs.Get msg.Body = some e → WellShaped e →
      ∃ n1, onMsgAppendLogEntry n msg = some (n1, Head.gMSG_REPL_RESPONSE)) ∧
    (∀ array, c.decodeBatch msg.Body = some array → (∀ v ∈ array, WellShaped v) →
      ∃ n1, updateDataFromRemoteNode c sem n msg = some n1) := by
  refine ⟨?_, ?_, ?_, ?_, ?_, ?_⟩
  · intro env n1 r hid h
    rcases onMsgReplDataSet_cases c n msg env n1 r h with ⟨-, rfl, -⟩ | ⟨-, -, items, -, -, hs⟩
    · exact ⟨hf, hb⟩
    · obtain ⟨h1, h2, -⟩ := push_save_inv n n1 ⟨env.logId, msg.Head, items⟩ hf hb hid hs
      exact ⟨h1, h2⟩
  · intro e n1 r hget hid h
    unfold onMsgAppendLogEntry at h
    rw [hget] at h
    simp only at h
    cases hs : saveLogEntry { n with LogList := e :: n.LogList } e with
    | none => rw [hs] at h; exact absurd h (by simp)
    | some n2 =>
      rw [hs] at h
      simp only [Option.some.injEq, Prod.mk.injEq] at h
      obtain ⟨h1, h2, -⟩ := push_save_inv n n2 e hf hb hid hs
      rw [← h.1]
      exact ⟨h1, h2⟩
  · intro array n1 hdec hun h
    unfold updateDataFromRemoteNode at h
    split at h
    · rw [hdec] at h
      simp only at h
      cases hl : batchLoop n array with
      | none => rw [hl] at h; exact absurd h (by simp)
      | some n2 =>
        rw [hl] at h
        simp only [Option.some.injEq] at h
        rw [aliasPushed_eq sem n.LogList array _ n2 (batchLoop_spec array n n2 hl).1 hun] at h
        rw [← h]
        exact batchLoop_inv array n n2 hf hb hl
    · simp only [Option.some.injEq] at h
      rw [← h]
      exact ⟨hf, hb⟩
  · intro env hw
    unfold onMsgReplDataSet
    split
    · cases hdec : c.decodeItems msg.Body with
      | none => exact ⟨_, _, rfl⟩
      | some items =>
        simp only
        split
        · obtain ⟨n2, hs⟩ := saveLogEntry_of_wellShaped
            { n with LogList := ⟨env.logId, msg.Head, items⟩ :: n.LogList }
            ⟨env.logId, msg.Head, items⟩ (hw items hdec)
          rw [hs]
          exact ⟨_, _, rfl⟩
        · exact ⟨_, _, rfl⟩
    · exact ⟨_, _, rfl⟩
  · intro e hget hw
    unfold onMsgAppendLogEntry
    rw [hget]
    obtain ⟨n2, hs⟩ := saveLogEntry_of_wellShaped { n with LogList := e :: n.LogList } e hw
    simp only [hs]
    exact ⟨_, rfl⟩
  · intro array hdec hw
    unfold updateDataFromRemoteNode
    split
    · rw [hdec]
      obtain ⟨n2, hl⟩ := batchLoop_of_wellShaped array n hw
      simp only [hl]
      exact ⟨_, rfl⟩
    · exact ⟨_, rfl⟩

/-- The follower `nodePending` commits its pending entry 7 and the fold
equality holds afterwards. -/
theorem foldInv_kept_example :
    ∃ n1, onMsgAppendLogEntry nodePending msgAppend7 =
        some (n1, Head.gMSG_REPL_RESPONSE) ∧ FoldInv n1 ∧ LogBounded n1 :=
  have hf : FoldInv nodePending := rfl
  have hb : LogBounded nodePending := fun x hx => absurd hx (List.not_mem_nil x)
  have key := foldInv_kept codecB LoopVar.perIteration nodePending
    msgAppend7 hf hb
  have hw : WellShaped entrySet7 :=
    ⟨fun _ => ⟨[("a", "1"), ("b", "2")], rfl⟩, fun h => absurd h (by decide)⟩
  match key.2.2.2.2.1 entrySet7 rfl hw with
  | ⟨n1, h1⟩ => ⟨n1, h1, key.2.1 entrySet7 n1 _ rfl (by decide) h1⟩

/-- C3, on the code: the fold equality is lost on each of the three commit
paths, from states that satisfy invariants 1 and 2.  (b) On the follower
`nodeStale` (entry 5 committed, `LastLogId` 5) `APPEND_LOG_ENTRY` for the
pending entry 3 pushes entry 3 on `LogList` before `saveLogEntry` drops it, so
the fold gains the key `b` that `DataMap` lacks.  (a) On the leader
`leaderAlone` a commit whose new id 3 is below `LastLogId` is pushed and
dropped in the same way.  (c) On the follower `nodeAt5` the batch of entries
7 and 9, ascending and well shaped, is applied to `DataMap`, but with the
shared loop variable both pushed pointers read as entry 9, so the fold lacks
the key `b` that `DataMap` holds; with a variable per iteration the equality
is kept. -/
theorem C3_fold_invariant_broken :
    (FoldInv nodeStale ∧ LogInv nodeStale ∧
      nodeStale.UncommittedLogs.Get msgAppend3.Body = some entryB3 ∧
      onMsgAppendLogEntry nodeStale msgAppend3 =
        some (nodeStaleAfter, Head.gMSG_REPL_RESPONSE) ∧
      ¬ FoldInv nodeStaleAfter) ∧
    (FoldInv leaderAlone ∧ LogInv leaderAlone ∧
      onMsgReplDataSet codecB leaderAlone msgSetB ⟨3, envQuiet⟩ =
        some (leaderAloneAfter, Head.gMSG_REPL_RESPONSE) ∧
      ¬ FoldInv leaderAloneAfter) ∧
    (FoldInv nodeAt5 ∧ LogInv nodeAt5 ∧
      codecBatch79.decodeBatch msgBatch79.Body = some [entryB7, entryC9] ∧
      updateDataFromRemoteNode codecBatch79 LoopVar.shared nodeAt5 msgBatch79 =
        some nodeAt5After79Shared ∧
      ¬ FoldInv nodeAt5After79Shared ∧
      updateDataFromRemoteNode codecBatch79 LoopVar.perIteration nodeAt5 msgBatch79 =
        some nodeAt5After79 ∧
      FoldInv nodeAt5After79) := by
  have hA : specFold StrMap.empty (idOrder [entryA5]) =
      some (fun k => if k = "a" then some "1" else none) := by
    simp only [idOrder, insertById, specFold, specApply, entryA5, JVal.ofMapping,
      JVal.asMapping, List.map, asMappingList, Option.map_some']
    congr 1
    funext k
    by_cases hk : k = "a" <;> simp [specMerge, lookupLast, StrMap.empty, hk]
  have hB : ¬ specFold StrMap.empty (idOrder [entryB3, entryA5]) =
      some (fun k => if k = "a" then some "1" else none) := by
    intro h
    have hid : idOrder [entryB3, entryA5] = [entryB3, entryA5] := by
      simp [idOrder, insertById, entryB3, entryA5]
    rw [hid] at h
    simp only [specFold, specApply, entryA5, entryB3, JVal.ofMapping,
      JVal.asMapping, List.map, asMappingList, Option.map_some', Option.some.injEq] at h
    have hb := congrFun h "b"
    simp [specMerge, lookupLast, StrMap.empty] at hb
  have hinv : ∀ n : Node, n.LogList = [entryA5] → n.LastLogId = 5 → LogInv n := by
    intro n hl hid
    unfold LogInv
    rw [hl, hid]
    exact ⟨by simp, rfl⟩
  have hbound : LogBounded nodeAt5 := by
    intro x hx
    have : x = entryA5 := by simpa [nodeAt5, nodeStale] using hx
    rw [this]
    decide
  have hshared : ¬ FoldInv nodeAt5After79Shared := by
    intro h
    have hid : idOrder [entryC9, entryC9, entryA5] = [entryA5, entryC9, entryC9] := by
      simp [idOrder, insertById, entryC9, entryA5]
    simp only [FoldInv, nodeAt5After79Shared] at h
    rw [hid] at h
    simp only [specFold, specApply, entryA5, entryC9, JVal.ofMapping,
      JVal.asMapping, List.map, asMappingList, Option.map_some', Option.some.injEq] at h
    have hb := congrFun h "b"
    simp [specMerge, lookupLast, StrMap.empty, StrMap.Set, nodeAt5, nodeStale] at hb
  have hper : FoldInv nodeAt5After79 :=
    ((foldInv_kept codecBatch79 LoopVar.perIteration nodeAt5 msgBatch79 hA hbound).2.2.1
      [entryB7, entryC9] nodeAt5After79 rfl (fun h => absurd h (by decide)) rfl).1
  exact ⟨⟨hA, hinv nodeStale rfl rfl, rfl, rfl, hB⟩,
    ⟨hA, hinv leaderAlone rfl rfl, rfl, hB⟩,
    ⟨hA, hinv nodeAt5 rfl rfl, rfl, rfl, hshared, rfl, hper⟩⟩

/-! ## Claims on the leader write path -/

theorem saveLogEntry_LogList (n n1 : Node) (e : LogEntry) (h : saveLogEntry n e = some n1) :
    n1.LogList = n.LogList := by
  unfold saveLogEntry at h
  split at h
  · simp only [Option.some.injEq] at h
    rw [← h]
  · cases hd : applyItems n.DataMap e with
    | none => rw [hd] at h; exact absurd h (by simp)
    | some d =>
      rw [hd] at h
      simp only [Option.some.injEq] at h
      rw [← h]

/-- C4: `onMsgReplDataSet` answers RESPONSE only if the node is LEADER, the
body decodes and `sendUncommittedLogEntryToPeers` returned true, and the state
at the response is then the one `saveLogEntry` returned for the new entry
after it was pushed on `LogList` (so the entry is the head of `LogList`); when
the node is not LEADER, or the body does not decode, or the quorum call
returned false, it answers FAILED and the state is the one it started from.
When the three conditions hold and `saveLogEntry` returns, the answer is
RESPONSE.  `onMsgReplDataRemove` is the same function. -/
theorem C4_onMsgReplDataSet_response (c : Codec) (n : Node) (msg : Msg) (env : ProposeEnv) :
    (∀ n1, onMsgReplDataSet c n msg env = some (n1, Head.gMSG_REPL_RESPONSE) →
      n.Role = RaftRole.gROLE_RAFT_LEADER ∧
      ∃ items, c.decodeItems msg.Body = some items ∧
        sendUncommittedLogEntryToPeers n ⟨env.logId, msg.Head, items⟩ msg.Info.Id
          env.phase1 = true ∧
        saveLogEntry { n with LogList := ⟨env.logId, msg.Head, items⟩ :: n.LogList }
          ⟨env.logId, msg.Head, items⟩ = some n1 ∧
        n1.LogList = ⟨env.logId, msg.Head, items⟩ :: n.LogList) ∧
    (¬ (n.Role = RaftRole.gROLE_RAFT_LEADER ∧
        ∃ items, c.decodeItems msg.Body = some items ∧
          sendUncommittedLogEntryToPeers n ⟨env.logId, msg.Head, items⟩ msg.Info.Id
            env.phase1 = true) →
      onMsgReplDataSet c n msg env = some (n, Head.gMSG_REPL_FAILED)) ∧
    (∀ items n1, n.Role = RaftRole.gROLE_RAFT_LEADER →
      c.decodeItems msg.Body = some items →
      sendUncommittedLogEntryToPeers n ⟨env.logId, msg.Head, items⟩ msg.Info.Id
        env.phase1 = true →
      saveLogEntry { n with LogList := ⟨env.logId, msg.Head, items⟩ :: n.LogList }
        ⟨env.logId, msg.Head, items⟩ = some n1 →
      onMsgReplDataSet c n msg env = some (n1, Head.gMSG_REPL_RESPONSE)) ∧
    onMsgReplDataRemove c n msg env = onMsgReplDataSet c n msg env := by
  refine ⟨?_, ?_, ?_, rfl⟩
  · intro n1 h
    rcases onMsgReplDataSet_cases c n msg env n1 _ h with ⟨hr, -, -⟩ | ⟨-, hrole, items, hdec, hq, hs⟩
    · exact absurd hr (by decide)
    · exact ⟨hrole, items, hdec, hq, hs, saveLogEntry_LogList _ n1 _ hs⟩
  · intro hnot
    unfold onMsgReplDataSet
    by_cases hrole : n.Role = RaftRole.gROLE_RAFT_LEADER
    · rw [if_pos hrole]
      cases hdec : c.decodeItems msg.Body with
      | none => rfl
      | some items =>
        have hq : ¬ sendUncommittedLogEntryToPeers n ⟨env.logId, msg.Head, items⟩
            msg.Info.Id env.phase1 = true :=
          fun hq => hnot ⟨hrole, items, hdec, hq⟩
        simp only [if_neg hq]
    · rw [if_neg hrole]
  · intro items n1 hrole hdec hq hs
    unfold onMsgReplDataSet
    rw [if_pos hrole, hdec]
    simp only [if_pos hq, hs]

/-- C4 at concrete inputs: the lone leader `leaderAlone` commits the request
`msgSetB` under the new id 9 and answers RESPONSE; the follower `node0`
answers FAILED to the same request and keeps its state. -/
theorem C4_onMsgReplDataSet_response_witness :
    onMsgReplDataSet codecB leaderAlone msgSetB ⟨9, envQuiet⟩ =
        some (leaderAloneAfter9, Head.gMSG_REPL_RESPONSE) ∧
      onMsgReplDataSet codecB node0 msgSetB ⟨9, envQuiet⟩ =
        some (node0, Head.gMSG_REPL_FAILED) :=
  ⟨(C4_onMsgReplDataSet_response codecB leaderAlone msgSetB ⟨9, envQuiet⟩).2.2.1
      (JVal.ofMapping [("b", "2")]) leaderAloneAfter9 rfl rfl rfl rfl,
    (C4_onMsgReplDataSet_response codecB node0 msgSetB ⟨9, envQuiet⟩).2.1
      (fun h => absurd h.1 (by decide))⟩

/-- The `int32` sum of line 252 agrees with the exact sum wherever the test
can succeed. -/
theorem wrap32_sum_eq (f d a : Int) (hf : IsInt32 f) (hd : IsInt32 d) (ha : IsInt32 a)
    (hpos : 0 < a) (hfpos : 0 < f) : wrap32 (f + d) = a ↔ f + d = a := by
  unfold IsInt32 at hf hd ha
  unfold wrap32
  omega

/-- An iteration that finds the deadline reached ends the loop. -/
theorem pollOnce_deadline (aliveCount timeout : Int) (l : Loads) :
    pollOnce aliveCount timeout { l with now := timeout } ≠ PollResult.again := by
  unfold pollOnce
  simp only [le_refl, if_true]
  split_ifs <;> simp

theorem waitLoop_true (aliveCount timeout : Int) (final : Loads) (polls : List Loads)
    (h : waitLoop aliveCount timeout final polls = true) :
    ∃ l, l ∈ polls ++ [final] ∧ SuccessSeen aliveCount l := by
  induction polls with
  | nil =>
    refine ⟨final, by simp, ?_⟩
    simp only [waitLoop, pollOnce] at h
    unfold SuccessSeen
    by_cases h1 : 0 < final.clientok ∧ 0 < final.serverok
    · exact Or.inl ⟨by omega, by omega⟩
    · by_cases h2 : final.doneCount = aliveCount
      · exact Or.inr h2
      · simp only [if_neg h1, if_neg h2] at h
        split_ifs at h
  | cons l rest ih =>
    simp only [waitLoop] at h
    cases hp : pollOnce aliveCount timeout l with
    | success =>
      refine ⟨l, by simp, ?_⟩
      unfold SuccessSeen
      unfold pollOnce at hp
      by_cases h1 : 0 < l.clientok ∧ 0 < l.serverok
      · exact Or.inl ⟨by omega, by omega⟩
      · by_cases h2 : l.doneCount = aliveCount
        · exact Or.inr h2
        · simp only [if_neg h1, if_neg h2] at hp
          split_ifs at hp
    | failure => rw [hp] at h; exact absurd h (by simp)
    | again =>
      rw [hp] at h
      obtain ⟨l1, hl1, hs⟩ := ih h
      exact ⟨l1, by simp only [List.cons_append, List.mem_cons]; exact Or.inr hl1, hs⟩

/-- The decision of one iteration in terms of the values its loads returned,
for counters that are non-negative `int32` values: the `int32` sum of line 252
is then the exact sum. -/
theorem pollOnce_rule (aliveCount timeout : Int) (l : Loads) (halive : 0 < aliveCount)
    (hA : IsInt32 aliveCount) (hf0 : 0 ≤ l.failCount3) (hf : IsInt32 l.failCount3)
    (hd0 : 0 ≤ l.doneCount2) (hd : IsInt32 l.doneCount2) :
    pollOnce aliveCount timeout l =
      (if (1 ≤ l.clientok ∧ 1 ≤ l.serverok) ∨ l.doneCount = aliveCount then
        PollResult.success
      else if l.failCount = aliveCount ∨
          (0 < l.failCount2 ∧ l.failCount3 + l.doneCount2 = aliveCount) ∨
          timeout ≤ l.now then PollResult.failure
      else PollResult.again) := by
  unfold pollOnce wrap32
  unfold IsInt32 at hA hd hf
  split_ifs <;> first | rfl | omega

/-- The first iteration that does not end with "poll again" decides what the
wait loop returns. -/
theorem waitLoop_decisive (aliveCount timeout : Int) (final : Loads)
    (pre : List Loads) (l : Loads) (post : List Loads)
    (hpre : ∀ x ∈ pre, pollOnce aliveCount timeout x = PollResult.again) :
    (pollOnce aliveCount timeout l = PollResult.success →
      waitLoop aliveCount timeout final (pre ++ l :: post) = true) ∧
    (pollOnce aliveCount timeout l = PollResult.failure →
      waitLoop aliveCount timeout final (pre ++ l :: post) = false) := by
  induction pre with
  | nil =>
    constructor
    · intro h
      simp only [List.nil_append, waitLoop, h]
    · intro h
      simp only [List.nil_append, waitLoop, h]
  | cons x rest ih =>
    have hx : pollOnce aliveCount timeout x = PollResult.again :=
      hpre x (List.mem_cons_self _ _)
    have hrest := ih (fun y hy => hpre y (List.mem_cons_of_mem _ hy))
    simp only [List.cons_append, waitLoop, hx]
    exact hrest

/-- When every listed iteration ends with "poll again", the iteration at the
deadline decides: true exactly when it observes a success condition. -/
theorem waitLoop_deadline (aliveCount timeout : Int) (final : Loads) (polls : List Loads)
    (h : ∀ x ∈ polls, pollOnce aliveCount timeout x = PollResult.again) :
    waitLoop aliveCount timeout final polls = true ↔ SuccessSeen aliveCount final := by
  induction polls with
  | nil =>
    unfold SuccessSeen
    simp only [waitLoop, pollOnce, le_refl, if_true]
    by_cases h1 : 0 < final.clientok ∧ 0 < final.serverok
    · simp only [if_pos h1, true_iff]
      exact Or.inl ⟨by omega, by omega⟩
    · have h1b : ¬ (1 ≤ final.clientok ∧ 1 ≤ final.serverok) :=
        fun hc => h1 ⟨by omega, by omega⟩
      by_cases h2 : final.doneCount = aliveCount
      · simp only [if_neg h1, if_pos h2, true_iff]
        exact Or.inr h2
      · simp only [if_neg h1, if_neg h2]
        constructor
        · intro hc
          split_ifs at hc
        · rintro (hc | hc)
          · exact absurd hc h1b
          · exact absurd hc h2
  | cons x rest ih =>
    have hx : pollOnce aliveCount timeout x = PollResult.again :=
      h x (List.mem_cons_self _ _)
    simp only [waitLoop, hx]
    exact ih (fun y hy => h y (List.mem_cons_of_mem _ hy))

/-- C5: with a positive `aliveCount`, an iteration of the wait loop that reads
the counters as one sample ends with success if `client_ok >= 1` and
`server_ok >= 1`, or if `done_count == alive_count`; otherwise with failure if
`fail_count == alive_count`, or if `fail_count > 0` and
`fail_count + done_count == alive_count` (the `int32` sum of the source agrees
with the exact sum here), or if the clock has reached the deadline; otherwise
the loop polls again.  So a success condition wins over every failure
condition of the same sample.  The same rule holds for the values the single
loads of an iteration return when the counters move between them.  The loop
returns what the first iteration that does not poll again decides: true for
success, false for failure, and at the deadline true exactly when a success
condition is observed; it returns true only if some iteration observed a
success condition.  For a non-empty registry with `aliveCount` live peers
`sendUncommittedLogEntryToPeers` is this loop with the deadline 3 seconds
after its start. -/
theorem C5_phase1_poll_outcome (aliveCount timeout : Int) (s : Sample)
    (halive : 0 < aliveCount) (hA : IsInt32 aliveCount) (hd : IsInt32 s.doneCount)
    (hf : IsInt32 s.failCount) :
    pollOnce aliveCount timeout (Loads.ofSample s) =
      (if (1 ≤ s.clientok ∧ 1 ≤ s.serverok) ∨ s.doneCount = aliveCount then
        PollResult.success
      else if s.failCount = aliveCount ∨
          (0 < s.failCount ∧ s.failCount + s.doneCount = aliveCount) ∨
          timeout ≤ s.now then PollResult.failure
      else PollResult.again) ∧
    ((1 ≤ s.clientok ∧ 1 ≤ s.serverok) ∨ s.doneCount = aliveCount →
      pollOnce aliveCount timeout (Loads.ofSample s) = PollResult.success) ∧
    (∀ final polls, waitLoop aliveCount timeout final polls = true →
      ∃ l, l ∈ polls ++ [final] ∧ SuccessSeen aliveCount l) ∧
    (∀ (n : Node) (entry : LogEntry) (clientId : String) (env : Phase1Env),
      1 ≤ n.Peers.length → countAlive n.Peers = aliveCount →
      sendUncommittedLogEntryToPeers n entry clientId env =
        waitLoop aliveCount (env.start + 3)
          (env.final.preset (if clientId = n.Id then 1 else 0))
          (env.polls.map (Loads.preset (if clientId = n.Id then 1 else 0)))) ∧
    (∀ l : Loads, 0 ≤ l.failCount3 → IsInt32 l.failCount3 → 0 ≤ l.doneCount2 →
      IsInt32 l.doneCount2 →
      pollOnce aliveCount timeout l =
        (if (1 ≤ l.clientok ∧ 1 ≤ l.serverok) ∨ l.doneCount = aliveCount then
          PollResult.success
        else if l.failCount = aliveCount ∨
            (0 < l.failCount2 ∧ l.failCount3 + l.doneCount2 = aliveCount) ∨
            timeout ≤ l.now then PollResult.failure
        else PollResult.again)) ∧
    (∀ (final : Loads) (pre : List Loads) (l : Loads) (post : List Loads),
      (∀ x ∈ pre, pollOnce aliveCount timeout x = PollResult.again) →
      (pollOnce aliveCount timeout l = PollResult.success →
        waitLoop aliveCount timeout final (pre ++ l :: post) = true) ∧
      (pollOnce aliveCount timeout l = PollResult.failure →
        waitLoop aliveCount timeout final (pre ++ l :: post) = false)) ∧
    (∀ (final : Loads) (polls : List Loads),
      (∀ x ∈ polls, pollOnce aliveCount timeout x = PollResult.again) →
      (waitLoop aliveCount timeout final polls = true ↔ SuccessSeen aliveCount final) ∧
      (waitLoop aliveCount timeout final polls = false ↔
        ¬ SuccessSeen aliveCount final)) := by
  have hmain : pollOnce aliveCount timeout (Loads.ofSample s) =
      (if (1 ≤ s.clientok ∧ 1 ≤ s.serverok) ∨ s.doneCount = aliveCount then
        PollResult.success
      else if s.failCount = aliveCount ∨
          (0 < s.failCount ∧ s.failCount + s.doneCount = aliveCount) ∨
          timeout ≤ s.now then PollResult.failure
      else PollResult.again) := by
    unfold pollOnce Loads.ofSample wrap32
    unfold IsInt32 at hA hd hf
    simp only
    split_ifs <;> first | rfl | omega
  refine ⟨hmain, ?_, ?_, ?_, ?_, ?_, ?_⟩
  · intro hs
    rw [hmain, if_pos hs]
  · intro final polls h
    exact waitLoop_true aliveCount timeout final polls h
  · intro n entry clientId env hpeers hcount
    unfold sendUncommittedLogEntryToPeers
    rw [if_neg (by omega)]
    simp only [hcount, if_pos halive]
  · intro l hf0 hf3 hd0 hd2
    exact pollOnce_rule aliveCount timeout l halive hA hf0 hf3 hd0 hd2
  · intro final pre l post hpre
    exact waitLoop_decisive aliveCount timeout final pre l post hpre
  · intro final polls hall
    have ht := waitLoop_deadline aliveCount timeout final polls hall
    refine ⟨ht, ?_⟩
    rw [← ht]
    cases waitLoop aliveCount timeout final polls <;> simp

/-- C5 at concrete inputs: with two live peers, one acknowledgement, no failure
and the deadline three seconds ahead, the loop polls again.  On the leader
`leaderTwoAlive`, for a request of its own client, the call returns true once
a server has acknowledged; for the client `x` it returns false when one peer
has failed and the other, not a server, has acknowledged, and false at the
deadline when no answer has come. -/
theorem C5_phase1_poll_outcome_witness :
    pollOnce 2 103 (Loads.ofSample sampleHalf) = PollResult.again ∧
      sendUncommittedLogEntryToPeers leaderTwoAlive entryB7 "n1" envAckSecond = true ∧
      sendUncommittedLogEntryToPeers leaderTwoAlive entryB7 "x" envOneFailed = false ∧
      sendUncommittedLogEntryToPeers leaderTwoAlive entryB7 "x" envQuiet = false :=
  have key := C5_phase1_poll_outcome 2 103 sampleHalf (by decide) ⟨by decide, by decide⟩
    ⟨by decide, by decide⟩ ⟨by decide, by decide⟩
  ⟨key.1.trans (by decide),
    (key.2.2.2.1 leaderTwoAlive entryB7 "n1" envAckSecond (by decide) (by decide)).trans
      (by decide),
    (key.2.2.2.1 leaderTwoAlive entryB7 "x" envOneFailed (by decide) (by decide)).trans
      (by decide),
    (key.2.2.2.1 leaderTwoAlive entryB7 "x" envQuiet (by decide) (by decide)).trans
      (by decide)⟩

/-! ## Claims on the follower receive path -/

theorem Cache.Get_Set (c : Cache) (k : String) (v : LogEntry) (ttl : Int) :
    (c.Set k v ttl).Get k = some v := by
  simp [Cache.Get, Cache.Set]

theorem Cache.Get_Remove (c : Cache) (k : String) : (c.Remove k).Get k = none := by
  simp only [Cache.Get, Cache.Remove, Option.map_eq_none', List.find?_eq_none,
    List.mem_filter]
  intro it hit
  simpa using hit.2

theorem saveLogEntry_UncommittedLogs (n n1 : Node) (e : LogEntry)
    (h : saveLogEntry n e = some n1) : n1.UncommittedLogs = n.UncommittedLogs := by
  unfold saveLogEntry at h
  split at h
  · simp only [Option.some.injEq] at h
    rw [← h]
  · cases hd : applyItems n.DataMap e with
    | none => rw [hd] at h; exact absurd h (by simp)
    | some d =>
      rw [hd] at h
      simp only [Option.some.injEq] at h
      rw [← h]

/-- C6: `onMsgUncommittedLogEntry` answers RESPONSE if and only if the
follower's `LastLogId` equals the `LastLogId` of the envelope and the body
decodes; it then stores the decoded entry in `UncommittedLogs` under
`FormatInt` of its id with the TTL argument 10, where `Get` finds it.
Otherwise it answers FAILED and `UncommittedLogs` is unchanged.  In both
cases `LogList`, `DataMap` and `LastLogId` (and the role, id and peers) are
unchanged. -/
theorem C6_onMsgUncommittedLogEntry (c : Codec) (n : Node) (msg : Msg) :
    ((onMsgUncommittedLogEntry c n msg).2 = Head.gMSG_REPL_RESPONSE ↔
      (n.LastLogId = msg.Info.LastLogId ∧ ∃ e, c.decodeEntry msg.Body = some e)) ∧
    (∀ e, n.LastLogId = msg.Info.LastLogId → c.decodeEntry msg.Body = some e →
      onMsgUncommittedLogEntry c n msg =
        ({ n with UncommittedLogs := n.UncommittedLogs.Set (FormatInt e.Id) e 10 },
          Head.gMSG_REPL_RESPONSE) ∧
      (onMsgUncommittedLogEntry c n msg).1.UncommittedLogs.Get (FormatInt e.Id) = some e ∧
      (onMsgUncommittedLogEntry c n msg).1.UncommittedLogs.items.head? =
        some ⟨FormatInt e.Id, e, 10⟩) ∧
    (¬ (n.LastLogId = msg.Info.LastLogId ∧ ∃ e, c.decodeEntry msg.Body = some e) →
      onMsgUncommittedLogEntry c n msg = (n, Head.gMSG_REPL_FAILED)) ∧
    ((onMsgUncommittedLogEntry c n msg).1 =
      { n with UncommittedLogs := (onMsgUncommittedLogEntry c n msg).1.UncommittedLogs }) ∧
    FormatInt 100 = "100" ∧ FormatInt (-12) = "-12" := by
  unfold onMsgUncommittedLogEntry
  by_cases hid : n.LastLogId = msg.Info.LastLogId
  · rw [if_pos hid]
    cases hdec : c.decodeEntry msg.Body with
    | none =>
      refine ⟨⟨fun h => absurd h (by simp), fun h => ?_⟩, fun e _ h => absurd h (by simp),
        fun _ => rfl, rfl, by decide, by decide⟩
      obtain ⟨-, e, he⟩ := h
      exact absurd he (by simp)
    | some e =>
      refine ⟨⟨fun _ => ⟨hid, e, rfl⟩, fun _ => rfl⟩, ?_, fun h => absurd ⟨hid, e, rfl⟩ h,
        rfl, by decide, by decide⟩
      intro e1 _ he1
      obtain rfl := Option.some.inj he1
      exact ⟨rfl, Cache.Get_Set _ _ _ _, rfl⟩
  · rw [if_neg hid]
    exact ⟨⟨fun h => absurd h (by simp), fun h => absurd h.1 hid⟩, fun e h => absurd h hid,
      fun _ => rfl, rfl, by decide, by decide⟩

/-- C6 at a concrete input: the follower `node0` (`LastLogId` 0) accepts the
proposal `msgProposeE` of a leader at `LastLogId` 0 and stores the decoded
entry under the key `7`. -/
theorem C6_onMsgUncommittedLogEntry_witness :
    onMsgUncommittedLogEntry codecB node0 msgProposeE =
        ({ node0 with UncommittedLogs := node0.UncommittedLogs.Set (FormatInt 7) entryBad7 10 },
          Head.gMSG_REPL_RESPONSE) ∧
      FormatInt 7 = "7" :=
  ⟨((C6_onMsgUncommittedLogEntry codecB node0 msgProposeE).2.1 entryBad7 rfl rfl).1,
    by decide⟩

/-- C7, as stated, fails: the handler does not answer RESPONSE in every case.
The follower `node0` accepts the proposal `msgProposeE`, whose body decodes to
a SET entry with the number 1 as payload; on `APPEND_LOG_ENTRY` for that id the
type assertion of `saveLogEntry` panics and no response is sent. -/
theorem C7_append_idempotent_counterexample :
    onMsgUncommittedLogEntry codecB node0 msgProposeE =
        (nodeBadPending, Head.gMSG_REPL_RESPONSE) ∧
      nodeBadPending.UncommittedLogs.Get msgAppend7.Body = some entryBad7 ∧
      onMsgAppendLogEntry nodeBadPending msgAppend7 = none :=
  ⟨rfl, rfl, rfl⟩

theorem asMappingList_some (kvs : List (String × JVal)) (m : List (String × String))
    (h : asMappingList kvs = some m) : kvs = m.map fun kv => (kv.1, JVal.str kv.2) := by
  induction kvs generalizing m with
  | nil =>
    simp only [asMappingList, Option.some.injEq] at h
    subst h
    rfl
  | cons kv rest ih =>
    obtain ⟨k, j⟩ := kv
    cases j with
    | str s =>
      simp only [asMappingList, Option.map_eq_some'] at h
      obtain ⟨m1, hm1, rfl⟩ := h
      rw [List.map_cons, ← ih m1 hm1]
    | _ => simp [asMappingList] at h

theorem asKeyList_some (xs : List JVal) (l : List String) (h : asKeyList xs = some l) :
    xs = l.map JVal.str := by
  induction xs generalizing l with
  | nil =>
    simp only [asKeyList, Option.some.injEq] at h
    subst h
    rfl
  | cons j rest ih =>
    cases j with
    | str s =>
      simp only [asKeyList, Option.map_eq_some'] at h
      obtain ⟨l1, hl1, rfl⟩ := h
      rw [List.map_cons, ← ih l1 hl1]
    | _ => simp [asKeyList] at h

theorem wellShaped_of_applyItems (d d1 : StrMap) (e : LogEntry)
    (h : applyItems d e = some d1) : WellShaped e := by
  rw [applyItems_eq_spec] at h
  unfold specApply at h
  constructor
  · intro hact
    simp only [hact, Option.map_eq_some'] at h
    obtain ⟨m, hm, -⟩ := h
    cases hI : e.Items with
    | obj kvs =>
      rw [hI] at hm
      exact ⟨m, by rw [asMappingList_some kvs m hm]; rfl⟩
    | _ => rw [hI] at hm; simp [JVal.asMapping] at hm
  · intro hact
    simp only [hact, Option.map_eq_some'] at h
    obtain ⟨l, hl, -⟩ := h
    cases hI : e.Items with
    | arr xs =>
      rw [hI] at hl
      exact ⟨l, by rw [asKeyList_some xs l hl]; rfl⟩
    | _ => rw [hI] at hl; simp [JVal.asKeys] at hl

/-- The panics of `saveLogEntry`: exactly the entries at or above `LastLogId`
whose payload does not have the shape their act asserts. -/
theorem saveLogEntry_eq_none_iff (n : Node) (e : LogEntry) :
    saveLogEntry n e = none ↔ n.LastLogId ≤ e.Id ∧ ¬ WellShaped e := by
  unfold saveLogEntry
  by_cases hlt : e.Id < n.LastLogId
  · rw [if_pos hlt]
    exact ⟨fun h => absurd h (by simp), fun h => absurd hlt (not_lt.2 h.1)⟩
  · rw [if_neg hlt]
    cases hd : applyItems n.DataMap e with
    | none =>
      refine ⟨fun _ => ⟨not_lt.1 hlt, fun hw => ?_⟩, fun _ => rfl⟩
      obtain ⟨d1, hd1⟩ := applyItems_of_wellShaped n.DataMap e hw
      rw [hd] at hd1
      exact absurd hd1 (by simp)
    | some d1 =>
      exact ⟨fun h => absurd h (by simp),
        fun h => absurd (wellShaped_of_applyItems n.DataMap d1 e hd) h.2⟩

/-- C7, amended: whenever `onMsgAppendLogEntry` completes it answers RESPONSE,
and running it again with the same id on the resulting state changes nothing
and answers RESPONSE again; when the id is not in `UncommittedLogs` the
handler completes and changes no state; the handler fails to complete exactly
when the cached entry is at or above `LastLogId` and its payload does not
have the shape its act asserts. -/
theorem C7_append_idempotent_amended (n : Node) (msg : Msg) :
    (∀ n1 r, onMsgAppendLogEntry n msg = some (n1, r) →
      r = Head.gMSG_REPL_RESPONSE ∧
      onMsgAppendLogEntry n1 msg = some (n1, Head.gMSG_REPL_RESPONSE)) ∧
    (n.UncommittedLogs.Get msg.Body = none →
      onMsgAppendLogEntry n msg = some (n, Head.gMSG_REPL_RESPONSE)) ∧
    (∀ e, n.UncommittedLogs.Get msg.Body = some e →
      (WellShaped e ∨ e.Id < n.LastLogId) →
      ∃ n1, onMsgAppendLogEntry n msg = some (n1, Head.gMSG_REPL_RESPONSE)) ∧
    (∀ e, n.UncommittedLogs.Get msg.Body = some e →
      (onMsgAppendLogEntry n msg = none ↔ n.LastLogId ≤ e.Id ∧ ¬ WellShaped e)) := by
  refine ⟨?_, ?_, ?_, ?_⟩
  · intro n1 r h
    unfold onMsgAppendLogEntry at h
    cases hget : n.UncommittedLogs.Get msg.Body with
    | none =>
      rw [hget] at h
      simp only [Option.some.injEq, Prod.mk.injEq] at h
      obtain ⟨rfl, rfl⟩ := h
      exact ⟨rfl, by unfold onMsgAppendLogEntry; rw [hget]⟩
    | some e =>
      rw [hget] at h
      simp only at h
      cases hs : saveLogEntry { n with LogList := e :: n.LogList } e with
      | none => rw [hs] at h; exact absurd h (by simp)
      | some n2 =>
        rw [hs] at h
        simp only [Option.some.injEq, Prod.mk.injEq] at h
        obtain ⟨rfl, rfl⟩ := h
        refine ⟨rfl, ?_⟩
        unfold onMsgAppendLogEntry
        simp only [Cache.Get_Remove]
  · intro hget
    unfold onMsgAppendLogEntry
    rw [hget]
  · intro e hget hw
    unfold onMsgAppendLogEntry
    rw [hget]
    simp only
    rcases hw with hw | hlt
    · obtain ⟨n2, hs⟩ := saveLogEntry_of_wellShaped { n with LogList := e :: n.LogList } e hw
      rw [hs]
      exact ⟨_, rfl⟩
    · have hs : saveLogEntry { n with LogList := e :: n.LogList } e =
          some { n with LogList := e :: n.LogList } := by
        simp [saveLogEntry, hlt]
      rw [hs]
      exact ⟨_, rfl⟩
  · intro e hget
    rw [← saveLogEntry_eq_none_iff { n with LogList := e :: n.LogList } e]
    unfold onMsgAppendLogEntry
    rw [hget]
    simp only
    cases hs : saveLogEntry { n with LogList := e :: n.LogList } e <;> simp

/-- C7, amended, at a concrete input: the follower `nodePending` commits its
pending entry 7 on the first `APPEND_LOG_ENTRY` and the second one changes
nothing. -/
theorem C7_append_idempotent_amended_witness :
    ∃ n1, onMsgAppendLogEntry nodePending msgAppend7 =
        some (n1, Head.gMSG_REPL_RESPONSE) ∧
      onMsgAppendLogEntry n1 msgAppend7 = some (n1, Head.gMSG_REPL_RESPONSE) :=
  have key := C7_append_idempotent_amended nodePending msgAppend7
  have hw : WellShaped entrySet7 :=
    ⟨fun _ => ⟨[("a", "1"), ("b", "2")], rfl⟩, fun h => absurd h (by decide)⟩
  match key.2.2.1 entrySet7 rfl (Or.inl hw) with
  | ⟨n1, h1⟩ => ⟨n1, h1, (key.1 n1 _ h1).2⟩

/-! ## Claims on the catch-up path -/

theorem accepted_of_ascending (array : List LogEntry) (last : Int)
    (h : array.Pairwise fun a b => a.Id < b.Id) :
    accepted last array = array.filter fun v => decide (last < v.Id) := by
  induction array generalizing last with
  | nil => rfl
  | cons v rest ih =>
    obtain ⟨hv, hrest⟩ := List.pairwise_cons.1 h
    by_cases hlt : last < v.Id
    · have h1 : rest.filter (fun w => decide (v.Id < w.Id)) = rest :=
        List.filter_eq_self.2 (fun w hw => by simpa using hv w hw)
      have h2 : rest.filter (fun w => decide (last < w.Id)) = rest :=
        List.filter_eq_self.2 (fun w hw => by simpa using lt_trans hlt (hv w hw))
      simp only [accepted, if_pos hlt, ih v.Id hrest, h1, List.filter_cons,
        decide_eq_true hlt, if_true, h2]
    · simp only [accepted, if_neg hlt, ih last hrest, List.filter_cons,
        decide_eq_false hlt, Bool.false_eq_true, if_false]

theorem batchLoop_of_committed (array : List LogEntry) (n : Node)
    (h : ∀ v ∈ array, v.Id ≤ n.LastLogId) : batchLoop n array = some n := by
  induction array with
  | nil => rfl
  | cons v rest ih =>
    have hv : ¬ n.LastLogId < v.Id := not_lt.2 (h v (List.mem_cons_self _ _))
    simp only [batchLoop, if_neg hv]
    exact ih (fun w hw => h w (List.mem_cons_of_mem _ hw))

/-- C8, as stated, fails.  (1) The follower `nodeAt5` (`LastLogId` 5) receives
a batch holding entry 7 in a message whose envelope carries `LastLogId` 5: the
guard on the envelope skips the batch and the state is unchanged.  (2) The
follower `node0` (`LastLogId` 0) receives the batch of entry 5 followed by
entry 3: entry 3 is compared with the `LastLogId` that entry 5 has advanced
and is skipped, so the key `b` it sets stays absent from `DataMap`. -/
theorem C8_incremental_update_counterexample :
    (nodeAt5.LastLogId < entryB7.Id ∧
      codecBatch.decodeBatch msgBatch7.Body = some [entryB7] ∧
      updateDataFromRemoteNode codecBatch LoopVar.perIteration nodeAt5 msgBatch7 =
        some nodeAt5 ∧
      updateDataFromRemoteNode codecBatch LoopVar.shared nodeAt5 msgBatch7 =
        some nodeAt5) ∧
    (node0.LastLogId < entryB3.Id ∧
      codecBatch.decodeBatch msgBatch53.Body = some [entryA5, entryB3] ∧
      updateDataFromRemoteNode codecBatch LoopVar.perIteration node0 msgBatch53 =
        some node0After53 ∧
      updateDataFromRemoteNode codecBatch LoopVar.shared node0 msgBatch53 =
        some node0After53Shared ∧
      node0After53.DataMap "b" = none ∧ node0After53Shared.DataMap "b" = none ∧
      node0After53.LogList.map (fun e => e.Id) = [5]) := by
  refine ⟨⟨by decide, rfl, rfl, rfl⟩, ⟨by decide, rfl, rfl, rfl, rfl, rfl, rfl⟩⟩

/-- C8, amended: when the envelope's `LastLogId` is above the follower's and
the batch decodes, `updateDataFromRemoteNode` takes exactly the entries whose
id is above the `LastLogId` left by the entries taken before them (for a batch
in strictly ascending id order: every entry whose id is above the follower's
`LastLogId` at receipt); if it completes, `DataMap` is the fold of the taken
entries over the old `DataMap`, `LastLogId` is the id of the last one taken,
`LogList` grows by one element per entry taken, which are the taken entries
themselves when the pushed pointers are not aliased, and `onMsgReplUpdate`
answers RESPONSE; it completes when every payload has the shape its act
asserts. -/
theorem C8_incremental_update_amended (c : Codec) (sem : LoopVar) (n : Node) (msg : Msg)
    (array : List LogEntry) (hguard : n.LastLogId < msg.Info.LastLogId)
    (hdec : c.decodeBatch msg.Body = some array) :
    (∀ n1, updateDataFromRemoteNode c sem n msg = some n1 →
      specFold n.DataMap (accepted n.LastLogId array) = some n1.DataMap ∧
      n1.LastLogId = lastIdOf n.LastLogId (accepted n.LastLogId array) ∧
      n1.LogList.length = (accepted n.LastLogId array).length + n.LogList.length ∧
      (Unaliased sem n.LastLogId array →
        n1.LogList = (accepted n.LastLogId array).reverse ++ n.LogList) ∧
      n1.UncommittedLogs = n.UncommittedLogs ∧
      onMsgReplUpdate c sem n msg = some (n1, Head.gMSG_REPL_RESPONSE)) ∧
    ((∀ v ∈ array, WellShaped v) → ∃ n1, updateDataFromRemoteNode c sem n msg = some n1) ∧
    ((array.Pairwise fun a b => a.Id < b.Id) →
      accepted n.LastLogId array = array.filter fun v => decide (n.LastLogId < v.Id)) := by
  have hupd : updateDataFromRemoteNode c sem n msg =
      match batchLoop n array with
      | some n1 => some (aliasPushed sem n.LogList array n1)
      | none => none := by
    unfold updateDataFromRemoteNode
    rw [if_pos hguard, hdec]
  refine ⟨?_, ?_, accepted_of_ascending array n.LastLogId⟩
  · intro n1 h
    have hresp : onMsgReplUpdate c sem n msg = some (n1, Head.gMSG_REPL_RESPONSE) := by
      unfold onMsgReplUpdate
      rw [h]
    rw [hupd] at h
    cases hl : batchLoop n array with
    | none => rw [hl] at h; exact absurd h (by simp)
    | some n2 =>
      rw [hl] at h
      simp only [Option.some.injEq] at h
      obtain ⟨h1, h2, h3, h4⟩ := batchLoop_spec array n n2 hl
      have hfields : n1.DataMap = n2.DataMap ∧ n1.LastLogId = n2.LastLogId ∧
          n1.UncommittedLogs = n2.UncommittedLogs ∧
          n1.LogList.length = n2.LogList.length := by
        rw [← h]
        unfold aliasPushed
        split
        · refine ⟨rfl, rfl, rfl, ?_⟩
          simp only [List.length_append, List.length_replicate]
          rw [h1, List.length_append]
          omega
        · exact ⟨rfl, rfl, rfl, rfl⟩
      obtain ⟨hd, hlast, hu, hlen⟩ := hfields
      refine ⟨by rw [hd]; exact h2, by rw [hlast]; exact h3, ?_, ?_, by rw [hu]; exact h4,
        hresp⟩
      · rw [hlen, h1, List.length_append, List.length_reverse]
      · intro hun
        rw [← h, aliasPushed_eq sem n.LogList array _ n2 h1 hun]
        exact h1
  · intro hw
    obtain ⟨n2, hl⟩ := batchLoop_of_wellShaped array n hw
    rw [hupd, hl]
    exact ⟨_, rfl⟩

/-- C8, amended, at a concrete input: the follower `node0` completes the update
with the batch of entries 5 and 3 from a sender at `LastLogId` 5. -/
theorem C8_incremental_update_amended_witness :
    ∃ n1, updateDataFromRemoteNode codecBatch LoopVar.perIteration node0 msgBatch53 =
      some n1 :=
  (C8_incremental_update_amended codecBatch LoopVar.perIteration node0 msgBatch53
    [entryA5, entryB3] (by decide) rfl).2.1 (by
      intro v hv
      simp only [List.mem_cons, List.mem_singleton, List.not_mem_nil, or_false] at hv
      rcases hv with rfl | rfl
      · exact ⟨fun _ => ⟨[("a", "1")], rfl⟩, fun h => absurd h (by decide)⟩
      · exact ⟨fun _ => ⟨[("b", "2")], rfl⟩, fun h => absurd h (by decide)⟩)

/-- C9: a decodable batch all of whose entries have an id at most the
follower's `LastLogId` leaves the whole state (`LogList`, `DataMap`,
`LastLogId` and the rest) unchanged, whatever `LastLogId` the envelope
carries, and `onMsgReplUpdate` answers RESPONSE. -/
theorem C9_committed_batch_noop (c : Codec) (sem : LoopVar) (n : Node) (msg : Msg)
    (array : List LogEntry) (hdec : c.decodeBatch msg.Body = some array)
    (hall : ∀ v ∈ array, v.Id ≤ n.LastLogId) :
    updateDataFromRemoteNode c sem n msg = some n ∧
      onMsgReplUpdate c sem n msg = some (n, Head.gMSG_REPL_RESPONSE) := by
  have hupd : updateDataFromRemoteNode c sem n msg = some n := by
    unfold updateDataFromRemoteNode
    split
    · rw [hdec]
      simp only [batchLoop_of_committed array n hall]
      rw [aliasPushed_eq sem n.LogList array [] n (by simp) (fun _ v hv => absurd hv (by simp))]
    · rfl
  exact ⟨hupd, by unfold onMsgReplUpdate; rw [hupd]⟩

/-- C9 at a concrete input: the follower `nodeAt5` receives the batch of
entries 5 and 3 from a sender at `LastLogId` 9 and keeps its state. -/
theorem C9_committed_batch_noop_witness :
    updateDataFromRemoteNode codecBatch LoopVar.shared nodeAt5 msgBatch53From9 =
        some nodeAt5 ∧
      onMsgReplUpdate codecBatch LoopVar.shared nodeAt5 msgBatch53From9 =
        some (nodeAt5, Head.gMSG_REPL_RESPONSE) :=
  C9_committed_batch_noop codecBatch LoopVar.shared nodeAt5 msgBatch53From9
    [entryA5, entryB3] rfl (by
      intro v hv
      simp only [List.mem_cons, List.mem_singleton, List.not_mem_nil, or_false] at hv
      rcases hv with rfl | rfl <;> decide)

theorem maxLogId_of_descending (x : LogEntry) (xs : List LogEntry)
    (h : (x :: xs).Pairwise fun a b => b.Id < a.Id) : maxLogId (x :: xs) = x.Id := by
  induction xs generalizing x with
  | nil => rfl
  | cons y ys ih =>
    obtain ⟨hx, hrest⟩ := List.pairwise_cons.1 h
    have hy : y.Id < x.Id := hx y (List.mem_cons_self _ _)
    show max x.Id (maxLogId (y :: ys)) = x.Id
    rw [ih y hrest]
    exact max_eq_left (le_of_lt hy)

/-- C10, on the code: in every state that satisfies invariant 2, for every
entry found in `UncommittedLogs` whose id is below `LastLogId`,
`onMsgAppendLogEntry` answers RESPONSE with the entry pushed on `LogList`
(and removed from `UncommittedLogs`), `DataMap` and `LastLogId` unchanged; the
out-of-order entry is thus added to the LogStore, and invariant 2 no longer
holds. -/
theorem C10_out_of_order_append_pushed (n : Node) (msg : Msg) (e : LogEntry)
    (hinv : LogInv n) (hget : n.UncommittedLogs.Get msg.Body = some e)
    (hlt : e.Id < n.LastLogId) :
    onMsgAppendLogEntry n msg =
        some ({ n with LogList := e :: n.LogList,
                       UncommittedLogs := n.UncommittedLogs.Remove msg.Body },
          Head.gMSG_REPL_RESPONSE) ∧
      ¬ LogInv { n with LogList := e :: n.LogList,
                        UncommittedLogs := n.UncommittedLogs.Remove msg.Body } := by
  constructor
  · unfold onMsgAppendLogEntry
    rw [hget]
    simp [saveLogEntry, hlt]
  · intro h
    obtain ⟨hpair, hlast⟩ := h
    simp only at hpair hlast
    obtain ⟨hhead, -⟩ := List.pairwise_cons.1 hpair
    cases hl : n.LogList with
    | nil =>
      rw [hl] at hlast
      simp only [maxLogId] at hlast
      omega
    | cons x xs =>
      have hx : x.Id < e.Id := hhead x (by rw [hl]; exact List.mem_cons_self _ _)
      have hmax : n.LastLogId = x.Id := by
        rw [hinv.2, hl]
        exact maxLogId_of_descending x xs (by rw [← hl]; exact hinv.1)
      omega

/-- C10 at the failing input: the follower `nodeStale` (entry 5 committed,
`LastLogId` 5) holds the proposal of entry 3; after `APPEND_LOG_ENTRY` for 3
the ids of `LogList` are 5, 3 in commit order. -/
theorem C10_out_of_order_append_pushed_witness :
    onMsgAppendLogEntry nodeStale msgAppend3 =
        some (nodeStaleAfter, Head.gMSG_REPL_RESPONSE) ∧
      ¬ LogInv nodeStaleAfter ∧
      nodeStaleAfter.LogList.map (fun e => e.Id) = [3, 5] ∧
      nodeStaleAfter.LastLogId = 5 :=
  have key := C10_out_of_order_append_pushed nodeStale msgAppend3 entryB3
    ⟨by simp [nodeStale], rfl⟩ rfl (by decide)
  ⟨key.1, key.2, rfl, rfl⟩

/-! ## Claim on out-of-order phase 2 -/

theorem Cache.Get_Remove_of_ne (c : Cache) (k1 k2 : String) (h : k1 ≠ k2) :
    (c.Remove k2).Get k1 = c.Get k1 := by
  obtain ⟨items⟩ := c
  simp only [Cache.Get, Cache.Remove]
  congr 1
  induction items with
  | nil => rfl
  | cons it rest ih =>
    have hfil : (it :: rest).filter (fun it => it.key != k2) =
        if it.key = k2 then rest.filter (fun it => it.key != k2)
        else it :: rest.filter (fun it => it.key != k2) := by
      by_cases hk2 : it.key = k2 <;> simp [List.filter_cons, hk2]
    have hfind : ∀ l : List CacheItem, (it :: l).find? (fun it => it.key == k1) =
        if it.key = k1 then some it else l.find? (fun it => it.key == k1) := by
      intro l
      by_cases hk1 : it.key = k1 <;> simp [List.find?_cons, hk1]
    rw [hfil, hfind rest]
    by_cases hk2 : it.key = k2
    · have hk1 : ¬ it.key = k1 := fun e => h (e.symm.trans hk2)
      rw [if_pos hk2, if_neg hk1]
      exact ih
    · rw [if_neg hk2, hfind]
      by_cases hk1 : it.key = k1
      · simp only [if_pos hk1]
      · simp only [if_neg hk1]
        exact ih

/-- C11, as stated, fails: the follower `nodeTwoPending` (`LastLogId` 0) holds the
proposals of entry 100 (`SET {"a":"1"}`) and entry 101 (`SET {"b":"2"}`).
`APPEND_LOG_ENTRY` for 101 applies entry 101; `APPEND_LOG_ENTRY` for 100 then
finds `LastLogId` at 101 and `saveLogEntry` drops entry 100.  `LastLogId`
ends at 101, but the key `a`, which applying 100 and then 101 sets to `1`,
is absent from `DataMap`. -/
theorem C11_out_of_order_phase2_counterexample :
    nodeTwoPending.UncommittedLogs.Get msgAppend100.Body = some entryA100 ∧
      nodeTwoPending.UncommittedLogs.Get msgAppend101.Body = some entryB101 ∧
      onMsgAppendLogEntry nodeTwoPending msgAppend101 =
        some (nodeAfter101, Head.gMSG_REPL_RESPONSE) ∧
      onMsgAppendLogEntry nodeAfter101 msgAppend100 =
        some (nodeAfter101Then100, Head.gMSG_REPL_RESPONSE) ∧
      nodeAfter101Then100.LastLogId = 101 ∧
      (∃ d, specFold nodeTwoPending.DataMap [entryA100, entryB101] = some d ∧
        d "a" = some "1") ∧
      nodeAfter101Then100.DataMap "a" = none :=
  ⟨rfl, rfl, rfl, rfl, rfl, ⟨_, rfl, rfl⟩, rfl⟩

/-- C11, amended: when `UncommittedLogs` holds `e1` and `e2` with
`LastLogId < e1.id < e2.id` and the payload of `e2` has the shape its act
asserts, `APPEND_LOG_ENTRY` for `e2` followed by `APPEND_LOG_ENTRY` for `e1`
answers RESPONSE twice and ends with `LastLogId == e2.id` and with the
`DataMap` obtained by applying `e2` alone to the initial `DataMap`: the
second message changes neither `DataMap` nor `LastLogId`, whatever `e1`
holds.  Both proposals are gone from `UncommittedLogs`. -/
theorem C11_out_of_order_phase2_amended (n : Node) (m1 m2 : Msg) (e1 e2 : LogEntry)
    (h1 : n.UncommittedLogs.Get m1.Body = some e1)
    (h2 : n.UncommittedLogs.Get m2.Body = some e2)
    (hlast : n.LastLogId < e1.Id) (hlt : e1.Id < e2.Id) (hw : WellShaped e2) :
    ∃ n1 n2, onMsgAppendLogEntry n m2 = some (n1, Head.gMSG_REPL_RESPONSE) ∧
      onMsgAppendLogEntry n1 m1 = some (n2, Head.gMSG_REPL_RESPONSE) ∧
      n2.LastLogId = e2.Id ∧
      specApply n.DataMap e2 = some n2.DataMap ∧
      n2.DataMap = n1.DataMap ∧ n2.LastLogId = n1.LastLogId ∧
      n2.UncommittedLogs.Get m1.Body = none ∧
      n2.UncommittedLogs.Get m2.Body = none := by
  have hne : m1.Body ≠ m2.Body := by
    intro hb
    rw [hb, h2] at h1
    have := Option.some.inj h1
    rw [this] at hlt
    exact lt_irrefl _ hlt
  obtain ⟨s1, hs1⟩ := saveLogEntry_of_wellShaped { n with LogList := e2 :: n.LogList } e2 hw
  obtain ⟨d, hd, rfl⟩ := saveLogEntry_fresh { n with LogList := e2 :: n.LogList } s1 e2
    (le_of_lt (lt_trans hlast hlt)) hs1
  have hfirst : onMsgAppendLogEntry n m2 =
      some ({ n with LogList := e2 :: n.LogList, DataMap := d, LastLogId := e2.Id,
                     UncommittedLogs := n.UncommittedLogs.Remove m2.Body },
        Head.gMSG_REPL_RESPONSE) := by
    unfold onMsgAppendLogEntry
    rw [h2]
    simp only [hs1]
  have hget : (n.UncommittedLogs.Remove m2.Body).Get m1.Body = some e1 := by
    rw [Cache.Get_Remove_of_ne _ _ _ hne, h1]
  refine ⟨_,
    { n with LogList := e1 :: e2 :: n.LogList, DataMap := d, LastLogId := e2.Id,
             UncommittedLogs := (n.UncommittedLogs.Remove m2.Body).Remove m1.Body },
    hfirst, ?_, rfl, hd, rfl, rfl, ?_, ?_⟩
  · unfold onMsgAppendLogEntry
    simp only [hget, saveLogEntry, if_pos hlt]
  · exact Cache.Get_Remove _ _
  · show ((n.UncommittedLogs.Remove m2.Body).Remove m1.Body).Get m2.Body = none
    rw [Cache.Get_Remove_of_ne _ _ _ (Ne.symm hne)]
    exact Cache.Get_Remove _ _

/-- C11, amended, at a concrete input: the follower `nodeTwoPending` with the
proposals 100 and 101 ends at `LastLogId` 101 with entry 101 alone applied. -/
theorem C11_out_of_order_phase2_amended_witness :
    ∃ n1 n2, onMsgAppendLogEntry nodeTwoPending msgAppend101 =
        some (n1, Head.gMSG_REPL_RESPONSE) ∧
      onMsgAppendLogEntry n1 msgAppend100 = some (n2, Head.gMSG_REPL_RESPONSE) ∧
      n2.LastLogId = 101 ∧
      specApply nodeTwoPending.DataMap entryB101 = some n2.DataMap :=
  match C11_out_of_order_phase2_amended nodeTwoPending msgAppend100 msgAppend101
      entryA100 entryB101 rfl rfl (by decide) (by decide)
      ⟨fun _ => ⟨[("b", "2")], rfl⟩, fun h => absurd h (by decide)⟩ with
  | ⟨n1, n2, h1, h2, h3, h4, _⟩ => ⟨n1, n2, h1, h2, h3, h4⟩

/-! ## Claims on the quorum call without live peers -/

theorem sendUncommitted_zero_peers (n : Node) (entry : LogEntry) (clientId : String)
    (env : Phase1Env) (hp : n.Peers = []) :
    sendUncommittedLogEntryToPeers n entry clientId env =
      decide (n.Role = RaftRole.gROLE_RAFT_LEADER ∧ n.MinNode = 1) := by
  unfold sendUncommittedLogEntryToPeers
  rw [hp]
  by_cases h : n.Role = RaftRole.gROLE_RAFT_LEADER ∧ n.MinNode = 1
  · simp [h]
  · simp [h]

/-- C12: with an empty peer registry `sendUncommittedLogEntryToPeers` returns
true if and only if the role is LEADER and `min_node == 1`, for every entry
and client id, and its result does not depend on what the network would
answer.  A zero-peer leader with `min_node == 1` therefore takes the commit
branch of `onMsgReplDataSet` for every decodable body: the new entry is
pushed on `LogList` and handed to `saveLogEntry`, and the answer is RESPONSE
(with the entry applied and `LastLogId` at its id when the id is at least
`LastLogId` and the payload has the shape its act asserts).  With
`min_node` other than 1 the answer is FAILED and the state is unchanged. -/
theorem C12_zero_peers (n : Node) (hp : n.Peers = []) :
    (∀ entry clientId env, sendUncommittedLogEntryToPeers n entry clientId env = true ↔
      (n.Role = RaftRole.gROLE_RAFT_LEADER ∧ n.MinNode = 1)) ∧
    (∀ entry clientId env entry2 clientId2 env2,
      sendUncommittedLogEntryToPeers n entry clientId env =
        sendUncommittedLogEntryToPeers n entry2 clientId2 env2) ∧
    (∀ (c : Codec) (msg : Msg) (penv : ProposeEnv) (items : JVal),
      n.Role = RaftRole.gROLE_RAFT_LEADER → n.MinNode = 1 →
      c.decodeItems msg.Body = some items →
      (onMsgReplDataSet c n msg penv =
        match saveLogEntry { n with LogList := ⟨penv.logId, msg.Head, items⟩ :: n.LogList }
            ⟨penv.logId, msg.Head, items⟩ with
        | some n1 => some (n1, Head.gMSG_REPL_RESPONSE)
        | none => none) ∧
      (n.LastLogId ≤ penv.logId → WellShaped ⟨penv.logId, msg.Head, items⟩ →
        ∃ n1, onMsgReplDataSet c n msg penv = some (n1, Head.gMSG_REPL_RESPONSE) ∧
          n1.LogList = ⟨penv.logId, msg.Head, items⟩ :: n.LogList ∧
          n1.LastLogId = penv.logId ∧
          specApply n.DataMap ⟨penv.logId, msg.Head, items⟩ = some n1.DataMap)) ∧
    (∀ (c : Codec) (msg : Msg) (penv : ProposeEnv), n.MinNode ≠ 1 →
      onMsgReplDataSet c n msg penv = some (n, Head.gMSG_REPL_FAILED)) := by
  refine ⟨?_, ?_, ?_, ?_⟩
  · intro entry clientId env
    rw [sendUncommitted_zero_peers n entry clientId env hp]
    simp
  · intro entry clientId env entry2 clientId2 env2
    rw [sendUncommitted_zero_peers n entry clientId env hp,
      sendUncommitted_zero_peers n entry2 clientId2 env2 hp]
  · intro c msg penv items hrole hmin hdec
    have hq : sendUncommittedLogEntryToPeers n ⟨penv.logId, msg.Head, items⟩ msg.Info.Id
        penv.phase1 = true := by
      rw [sendUncommitted_zero_peers n _ _ _ hp]
      simp [hrole, hmin]
    have heq : onMsgReplDataSet c n msg penv =
        match saveLogEntry { n with LogList := ⟨penv.logId, msg.Head, items⟩ :: n.LogList }
            ⟨penv.logId, msg.Head, items⟩ with
        | some n1 => some (n1, Head.gMSG_REPL_RESPONSE)
        | none => none := by
      unfold onMsgReplDataSet
      rw [if_pos hrole, hdec]
      simp only [if_pos hq]
    refine ⟨heq, ?_⟩
    intro hid hw
    obtain ⟨s1, hs1⟩ := saveLogEntry_of_wellShaped
      { n with LogList := ⟨penv.logId, msg.Head, items⟩ :: n.LogList }
      ⟨penv.logId, msg.Head, items⟩ hw
    obtain ⟨d, hd, rfl⟩ := saveLogEntry_fresh
      { n with LogList := ⟨penv.logId, msg.Head, items⟩ :: n.LogList } s1
      ⟨penv.logId, msg.Head, items⟩ hid hs1
    exact ⟨_, by rw [heq, hs1], rfl, rfl, hd⟩
  · intro c msg penv hmin
    unfold onMsgReplDataSet
    by_cases hrole : n.Role = RaftRole.gROLE_RAFT_LEADER
    · rw [if_pos hrole]
      cases hdec : c.decodeItems msg.Body with
      | none => rfl
      | some items =>
        have hq : ¬ sendUncommittedLogEntryToPeers n ⟨penv.logId, msg.Head, items⟩
            msg.Info.Id penv.phase1 = true := by
          rw [sendUncommitted_zero_peers n _ _ _ hp]
          simp [hmin]
        simp only [if_neg hq]
    · rw [if_neg hrole]

/-- C12 at concrete inputs: the zero-peer leader `leaderAlone` (`min_node` 1)
commits the request `msgSetB` under the id 9; with `min_node` 2 it answers
FAILED and keeps its state. -/
theorem C12_zero_peers_witness :
    (∃ n1, onMsgReplDataSet codecB leaderAlone msgSetB ⟨9, envQuiet⟩ =
        some (n1, Head.gMSG_REPL_RESPONSE) ∧
      n1.LogList = ⟨9, Head.gMSG_REPL_DATA_SET, JVal.ofMapping [("b", "2")]⟩ ::
        leaderAlone.LogList ∧
      n1.LastLogId = 9) ∧
    onMsgReplDataSet codecB { leaderAlone with MinNode := 2 } msgSetB ⟨9, envQuiet⟩ =
      some ({ leaderAlone with MinNode := 2 }, Head.gMSG_REPL_FAILED) :=
  ⟨match ((C12_zero_peers leaderAlone rfl).2.2.1 codecB msgSetB ⟨9, envQuiet⟩
      (JVal.ofMapping [("b", "2")]) rfl rfl rfl).2 (by decide)
      ⟨fun _ => ⟨[("b", "2")], rfl⟩, fun h => absurd h (by decide)⟩ with
    | ⟨n1, h1, h2, h3, _⟩ => ⟨n1, h1, h2, h3⟩,
    (C12_zero_peers { leaderAlone with MinNode := 2 } rfl).2.2.2 codecB msgSetB
      ⟨9, envQuiet⟩ (by decide)⟩

theorem countAlive_of_none_alive (peers : List NodeInfo)
    (h : ∀ p ∈ peers, p.Status ≠ PeerStatus.gSTATUS_ALIVE) : countAlive peers = 0 := by
  have hfil : peers.filter (fun p => decide (p.Status = PeerStatus.gSTATUS_ALIVE)) = [] := by
    rw [List.filter_eq_nil_iff]
    intro p hp
    simpa using h p hp
  unfold countAlive
  rw [hfil]
  rfl

/-- C13: with a non-empty peer registry in which no peer is ALIVE,
`sendUncommittedLogEntryToPeers` returns false for every entry, every client
id (the node's own id included), every `min_node` and every answer of the
network; `onMsgReplDataSet` therefore answers FAILED and returns the state it
started from, so `LogList`, `DataMap` and `LastLogId` are unchanged. -/
theorem C13_no_alive_peer (n : Node) (hne : n.Peers ≠ [])
    (hdead : ∀ p ∈ n.Peers, p.Status ≠ PeerStatus.gSTATUS_ALIVE) :
    (∀ entry clientId env, sendUncommittedLogEntryToPeers n entry clientId env = false) ∧
    (∀ (c : Codec) (msg : Msg) (penv : ProposeEnv),
      onMsgReplDataSet c n msg penv = some (n, Head.gMSG_REPL_FAILED)) := by
  have hsend : ∀ entry clientId env,
      sendUncommittedLogEntryToPeers n entry clientId env = false := by
    intro entry clientId env
    have hlen : ¬ n.Peers.length < 1 := by
      cases hp : n.Peers with
      | nil => exact absurd hp hne
      | cons p rest => simp
    unfold sendUncommittedLogEntryToPeers
    rw [if_neg hlen]
    simp only [countAlive_of_none_alive n.Peers hdead, lt_irrefl, if_false]
  refine ⟨hsend, ?_⟩
  intro c msg penv
  unfold onMsgReplDataSet
  by_cases hrole : n.Role = RaftRole.gROLE_RAFT_LEADER
  · rw [if_pos hrole]
    cases hdec : c.decodeItems msg.Body with
    | none => rfl
    | some items => simp only [hsend, Bool.false_eq_true, if_false]
  · rw [if_neg hrole]

/-- C13 at a concrete input: the leader `leaderDeadPeers` (`min_node` 2, peers
B and C both DEAD) answers FAILED to the request `msgSetB` of its own client
and keeps its state. -/
theorem C13_no_alive_peer_witness :
    sendUncommittedLogEntryToPeers leaderDeadPeers entryB7 "n1" envQuiet = false ∧
      onMsgReplDataSet codecB leaderDeadPeers msgSetB ⟨9, envQuiet⟩ =
        some (leaderDeadPeers, Head.gMSG_REPL_FAILED) :=
  have key := C13_no_alive_peer leaderDeadPeers (by simp [leaderDeadPeers])
    (by
      intro p hp
      simp only [leaderDeadPeers, List.mem_cons, List.mem_singleton, List.not_mem_nil,
        or_false] at hp
      rcases hp with rfl | rfl <;> decide)
  ⟨key.1 entryB7 "n1" envQuiet, key.2 codecB msgSetB ⟨9, envQuiet⟩⟩

/-! ## Claim on the update check -/

/-- C14: `onMsgDataUpdateCheck` answers RESPONSE if and only if the follower's
`LastLogId` is strictly below the `LastLogId` of the envelope and
`UncommittedLogs` is empty; otherwise it answers FAILED; the state is
returned unchanged. -/
theorem C14_onMsgDataUpdateCheck (n : Node) (msg : Msg) :
    ((onMsgDataUpdateCheck n msg).2 = Head.gMSG_REPL_RESPONSE ↔
      (n.LastLogId < msg.Info.LastLogId ∧ n.UncommittedLogs.Size = 0)) ∧
    (¬ (n.LastLogId < msg.Info.LastLogId ∧ n.UncommittedLogs.Size = 0) →
      (onMsgDataUpdateCheck n msg).2 = Head.gMSG_REPL_FAILED) ∧
    (onMsgDataUpdateCheck n msg).1 = n ∧
    (n.UncommittedLogs.Size = 0 ↔ n.UncommittedLogs.items = []) := by
  unfold onMsgDataUpdateCheck
  by_cases h : n.LastLogId < msg.Info.LastLogId ∧ n.UncommittedLogs.Size = 0
  · rw [if_pos h]
    exact ⟨⟨fun _ => h, fun _ => rfl⟩, fun hn => absurd h hn, rfl,
      by simp [Cache.Size]⟩
  · rw [if_neg h]
    exact ⟨⟨fun hr => absurd hr (by simp), fun hc => absurd hc h⟩, fun _ => rfl, rfl,
      by simp [Cache.Size]⟩

/-- C14 at concrete inputs: asked by a sender at `LastLogId` 5, the caught-up
follower `nodeAt5` and the follower `nodePending` (behind, but holding a
proposal) answer FAILED, the empty follower `node0` answers RESPONSE. -/
theorem C14_onMsgDataUpdateCheck_witness :
    onMsgDataUpdateCheck node0 msgCheck5 = (node0, Head.gMSG_REPL_RESPONSE) ∧
      (onMsgDataUpdateCheck nodeAt5 msgCheck5).2 = Head.gMSG_REPL_FAILED ∧
      (onMsgDataUpdateCheck nodePending msgCheck5).2 = Head.gMSG_REPL_FAILED :=
  ⟨Prod.ext (C14_onMsgDataUpdateCheck node0 msgCheck5).2.2.1
      ((C14_onMsgDataUpdateCheck node0 msgCheck5).1.2 ⟨by decide, rfl⟩),
    (C14_onMsgDataUpdateCheck nodeAt5 msgCheck5).2.1 (fun h => absurd h.1 (by decide)),
    (C14_onMsgDataUpdateCheck nodePending msgCheck5).2.1
      (fun h => absurd h.2 (by decide))⟩

/-! ## Claim on the payload of leader-created entries -/

/-- C15, as stated, fails: the zero-peer leader `leaderAlone` (`min_node` 1)
receives `DATA_SET` with the body `1`, which decodes to a number.  The leader
builds the entry `SET 1` with the new id 9 without looking at the payload,
the quorum call succeeds, and the type assertion of `saveLogEntry` panics:
the handler does not complete. -/
theorem C15_leader_payload_counterexample :
    leaderAlone.Role = RaftRole.gROLE_RAFT_LEADER ∧
      codecB.decodeItems msgSetOne.Body = some (JVal.num 1) ∧
      sendUncommittedLogEntryToPeers leaderAlone ⟨9, msgSetOne.Head, JVal.num 1⟩
        msgSetOne.Info.Id envQuiet = true ∧
      ¬ WellShaped ⟨9, msgSetOne.Head, JVal.num 1⟩ ∧
      onMsgReplDataSet codecB leaderAlone msgSetOne ⟨9, envQuiet⟩ = none := by
  refine ⟨rfl, rfl, rfl, ?_, rfl⟩
  intro h
  obtain ⟨m, hm⟩ := h.1 rfl
  simp [JVal.ofMapping] at hm

/-- C15, amended: the leader write path puts the decoded body into the entry
as it is, with the message head as act.  When the node is LEADER, the body
decodes and the quorum call succeeds, the handler fails to complete (a type
assertion of `saveLogEntry` panics) exactly when the new id is at least
`LastLogId` and the decoded body does not have the shape the act asserts;
whenever it completes it answers RESPONSE with the entry at the head of
`LogList`, and an entry whose id is at least `LastLogId` then has a payload of
the shape of its act: a mapping of strings for SET, a sequence of strings for
REMOVE. -/
theorem C15_leader_payload_amended (c : Codec) (n : Node) (msg : Msg) (penv : ProposeEnv)
    (items : JVal) (hrole : n.Role = RaftRole.gROLE_RAFT_LEADER)
    (hdec : c.decodeItems msg.Body = some items)
    (hq : sendUncommittedLogEntryToPeers n ⟨penv.logId, msg.Head, items⟩ msg.Info.Id
      penv.phase1 = true) :
    (onMsgReplDataSet c n msg penv = none ↔
      (n.LastLogId ≤ penv.logId ∧ ¬ WellShaped ⟨penv.logId, msg.Head, items⟩)) ∧
    (∀ n1 r, onMsgReplDataSet c n msg penv = some (n1, r) →
      r = Head.gMSG_REPL_RESPONSE ∧
      n1.LogList = ⟨penv.logId, msg.Head, items⟩ :: n.LogList ∧
      (n.LastLogId ≤ penv.logId →
        (msg.Head = Head.gMSG_REPL_DATA_SET → ∃ m, items = JVal.ofMapping m) ∧
        (msg.Head = Head.gMSG_REPL_DATA_REMOVE → ∃ l, items = JVal.ofKeys l))) ∧
    (onMsgReplDataRemove c n msg penv = onMsgReplDataSet c n msg penv) := by
  have heq : onMsgReplDataSet c n msg penv =
      match saveLogEntry { n with LogList := ⟨penv.logId, msg.Head, items⟩ :: n.LogList }
          ⟨penv.logId, msg.Head, items⟩ with
      | some n1 => some (n1, Head.gMSG_REPL_RESPONSE)
      | none => none := by
    unfold onMsgReplDataSet
    rw [if_pos hrole, hdec]
    simp only [if_pos hq]
  have hnone := saveLogEntry_eq_none_iff
    { n with LogList := ⟨penv.logId, msg.Head, items⟩ :: n.LogList }
    ⟨penv.logId, msg.Head, items⟩
  refine ⟨?_, ?_, rfl⟩
  · rw [heq, ← hnone]
    cases saveLogEntry { n with LogList := ⟨penv.logId, msg.Head, items⟩ :: n.LogList }
      ⟨penv.logId, msg.Head, items⟩ <;> simp
  · intro n1 r h
    rw [heq] at h
    cases hs : saveLogEntry { n with LogList := ⟨penv.logId, msg.Head, items⟩ :: n.LogList }
        ⟨penv.logId, msg.Head, items⟩ with
    | none => rw [hs] at h; exact absurd h (by simp)
    | some n2 =>
      rw [hs] at h
      simp only [Option.some.injEq, Prod.mk.injEq] at h
      obtain ⟨rfl, rfl⟩ := h
      refine ⟨rfl, saveLogEntry_LogList _ n2 _ hs, ?_⟩
      intro hid
      by_contra hw
      have : saveLogEntry { n with LogList := ⟨penv.logId, msg.Head, items⟩ :: n.LogList }
          ⟨penv.logId, msg.Head, items⟩ = none := hnone.2 ⟨hid, hw⟩
      rw [hs] at this
      exact absurd this (by simp)

/-- C15, amended, at a concrete input: on the leader `leaderAlone` the request
`msgSetB`, whose body decodes to a mapping, completes under the new id 9. -/
theorem C15_leader_payload_amended_witness :
    ¬ (onMsgReplDataSet codecB leaderAlone msgSetB ⟨9, envQuiet⟩ = none) :=
  fun h =>
    ((C15_leader_payload_amended codecB leaderAlone msgSetB ⟨9, envQuiet⟩
      (JVal.ofMapping [("b", "2")]) rfl rfl rfl).1.1 h).2
      ⟨fun _ => ⟨[("b", "2")], rfl⟩, fun hr => absurd hr (by decide)⟩

/-! ## Claim on the catch-up guard -/

/-- C16: `updateDataToRemoteNode` hands no message to `sendMsg` and returns
when the peer's `last_log_id` is at least the leader's `LastLogId`, and when
it is non-zero and `isValidLogId` reports it invalid, whatever the network
would do.  It enters the batch loop, with the peer's `last_log_id` as cursor,
exactly when the peer's `last_log_id` is below the leader's `LastLogId` and is
0 or valid; so a message is sent only then, and it is sent when moreover the
reader returns a non-empty first batch. -/
theorem C16_catch_up_guard (r : LogReader) (n : Node) (info : NodeInfo)
    (rounds : List Round) :
    (n.LastLogId ≤ info.LastLogId →
      updateDataToRemoteNode r n info rounds = ⟨[], true⟩) ∧
    (info.LastLogId ≠ 0 → r.isValidLogId info.LastLogId = false →
      updateDataToRemoteNode r n info rounds = ⟨[], true⟩) ∧
    (info.LastLogId < n.LastLogId →
      (info.LastLogId = 0 ∨ r.isValidLogId info.LastLogId = true) →
      updateDataToRemoteNode r n info rounds =
        catchUpLoop r n.LastLogId rounds info.LastLogId) ∧
    ((updateDataToRemoteNode r n info rounds).sent ≠ [] →
      info.LastLogId < n.LastLogId ∧
        (info.LastLogId = 0 ∨ r.isValidLogId info.LastLogId = true)) ∧
    (info.LastLogId < n.LastLogId →
      (info.LastLogId = 0 ∨ r.isValidLogId info.LastLogId = true) →
      r.getLogEntriesByLastLogId info.LastLogId 10000 ≠ [] →
      (updateDataToRemoteNode r n info rounds).sent.head? =
        some (r.getLogEntriesByLastLogId info.LastLogId 10000)) := by
  have hstart : info.LastLogId < n.LastLogId →
      (info.LastLogId = 0 ∨ r.isValidLogId info.LastLogId = true) →
      updateDataToRemoteNode r n info rounds =
        catchUpLoop r n.LastLogId rounds info.LastLogId := by
    intro hlt hv
    unfold updateDataToRemoteNode
    simp only [if_pos hlt]
    rw [if_pos]
    rcases hv with h0 | hv
    · exact Or.inl h0
    · by_cases h0 : info.LastLogId = 0
      · exact Or.inl h0
      · exact Or.inr ⟨h0, hv⟩
  refine ⟨?_, ?_, hstart, ?_, ?_⟩
  · intro hge
    unfold updateDataToRemoteNode
    simp only [if_neg (not_lt.2 hge)]
  · intro h0 hv
    unfold updateDataToRemoteNode
    by_cases hlt : info.LastLogId < n.LastLogId
    · simp only [if_pos hlt]
      rw [if_neg]
      rintro (h | ⟨-, h⟩)
      · exact h0 h
      · rw [hv] at h
        exact absurd h (by simp)
    · simp only [if_neg hlt]
  · intro hsent
    by_cases hlt : info.LastLogId < n.LastLogId
    · refine ⟨hlt, ?_⟩
      by_contra hv
      apply hsent
      unfold updateDataToRemoteNode
      simp only [if_pos hlt]
      rw [if_neg]
      rintro (h | ⟨-, h⟩)
      · exact hv (Or.inl h)
      · exact hv (Or.inr h)
    · exfalso
      apply hsent
      unfold updateDataToRemoteNode
      simp only [if_neg hlt]
  · intro hlt hv hne
    rw [hstart hlt hv]
    have hpos : 0 < (r.getLogEntriesByLastLogId info.LastLogId 10000).length :=
      List.length_pos.2 hne
    cases rounds with
    | nil => simp only [catchUpLoop, if_pos hpos, List.head?_cons]
    | cons round rest =>
      simp only [catchUpLoop, if_pos hpos]
      cases round with
      | sendFailed => rfl
      | noReply => rfl
      | reply peerLast =>
        simp only
        split <;> rfl

/-- C16 at concrete inputs, for the leader `nodeAt5` (`LastLogId` 5): a peer at
5 and a peer at the unknown id 3 are sent nothing; a peer at 0 is sent the
batch of entry 5 and, once it answers with `LastLogId` 5, the run returns. -/
theorem C16_catch_up_guard_witness :
    updateDataToRemoteNode readerAt5 nodeAt5 (peerAt 5) [Round.reply 5] = ⟨[], true⟩ ∧
      updateDataToRemoteNode readerAt5 nodeAt5 (peerAt 3) [Round.reply 5] = ⟨[], true⟩ ∧
      updateDataToRemoteNode readerAt5 nodeAt5 (peerAt 0) [Round.reply 5] =
        ⟨[[entryA5]], true⟩ :=
  ⟨(C16_catch_up_guard readerAt5 nodeAt5 (peerAt 5) [Round.reply 5]).1 (by decide),
    (C16_catch_up_guard readerAt5 nodeAt5 (peerAt 3) [Round.reply 5]).2.1 (by decide) rfl,
    ((C16_catch_up_guard readerAt5 nodeAt5 (peerAt 0) [Round.reply 5]).2.2.1 (by decide)
      (Or.inl rfl)).trans rfl⟩

/-! ## Claims on the phase-2 dispatch -/

/-- The inner loop ends within `3 - tryMsg` iterations, with `tryMsg` at 3 or
with `result` true, after at least one and at most `3 - tryMsg` sends. -/
theorem msgLoop_spec (net : Net) (fuel tryMsg : Nat) (t : Trace) (htry : tryMsg < 3)
    (hfuel : 3 ≤ fuel + tryMsg) :
    ∃ r m t1, msgLoop net fuel tryMsg t = some (r, m, t1) ∧ (m = 3 ∨ r = true) ∧
      t1.calls = t.calls ∧ t1.dials = t.dials ∧ t.sends < t1.sends ∧
      t1.sends + tryMsg ≤ t.sends + 3 := by
  induction fuel generalizing tryMsg t with
  | zero => omega
  | succ fuel ih =>
    simp only [msgLoop]
    by_cases hs : net.sendErr t.sends = true
    · simp only [hs, if_true]
      by_cases hr : net.recv t.recvs = some Head.gMSG_REPL_RESPONSE
      · simp only [hr, if_true]
        exact ⟨_, _, _, rfl, Or.inr rfl, rfl, rfl, by simp, by simp; omega⟩
      · simp only [hr, if_false]
        by_cases h3 : tryMsg + 1 = 3
        · simp only [h3, if_true]
          exact ⟨_, _, _, rfl, Or.inl rfl, rfl, rfl, by simp, by simp; omega⟩
        · simp only [h3, if_false]
          obtain ⟨r, m, t1, h, hm, hc, hd, hlo, hhi⟩ :=
            ih (tryMsg + 1) { t with sends := t.sends + 1, recvs := t.recvs + 1 }
              (by omega) (by omega)
          simp only at hc hd hlo hhi
          exact ⟨r, m, t1, h, hm, hc, hd, by omega, by omega⟩
    · simp only [hs, Bool.false_eq_true, if_false]
      by_cases h3 : tryMsg + 1 = 3
      · simp only [h3, if_true]
        exact ⟨_, _, _, rfl, Or.inl rfl, rfl, rfl, by simp, by simp; omega⟩
      · simp only [h3, if_false]
        obtain ⟨r, m, t1, h, hm, hc, hd, hlo, hhi⟩ :=
          ih (tryMsg + 1) { t with sends := t.sends + 1 } (by omega) (by omega)
        simp only at hc hd hlo hhi
        exact ⟨r, m, t1, h, hm, hc, hd, by omega, by omega⟩

/-- The outer loop ends within `3 - tryConn` iterations, after at least one
and at most `3 - tryConn` dials and at most 3 sends. -/
theorem connLoop_spec (net : Net) (inner fuel tryConn : Nat) (t : Trace)
    (hinner : 3 ≤ inner) (htry : tryConn < 3) (hfuel : 3 ≤ fuel + tryConn) :
    ∃ r t1, connLoop net inner fuel tryConn t = some (r, t1) ∧
      t1.calls = t.calls ∧ t.dials < t1.dials ∧ t1.dials + tryConn ≤ t.dials + 3 ∧
      t.sends ≤ t1.sends ∧ t1.sends ≤ t.sends + 3 := by
  induction fuel generalizing tryConn t with
  | zero => omega
  | succ fuel ih =>
    simp only [connLoop]
    by_cases hd : net.dial t.dials = true
    · simp only [hd, if_true]
      obtain ⟨r, m, t2, h, hm, hc, hdl, hlo, hhi⟩ :=
        msgLoop_spec net inner 0 { t with dials := t.dials + 1 } (by omega) (by omega)
      simp only at hc hdl hlo hhi
      rw [h]
      simp only
      rcases hm with hm | hr
      · rw [if_pos hm]
        exact ⟨_, _, rfl, hc, by omega, by omega, by omega, by omega⟩
      · by_cases hm : m = 3
        · rw [if_pos hm]
          exact ⟨_, _, rfl, hc, by omega, by omega, by omega, by omega⟩
        · rw [if_neg hm, if_pos hr]
          exact ⟨_, _, rfl, hc, by omega, by omega, by omega, by omega⟩
    · simp only [hd, Bool.false_eq_true, if_false]
      by_cases h3 : tryConn + 1 = 3
      · simp only [h3, if_true]
        exact ⟨_, _, rfl, rfl, by simp, by simp; omega, by simp, by simp⟩
      · simp only [h3, if_false]
        obtain ⟨r, t1, h, hc, hlo, hhi, hslo, hshi⟩ :=
          ih (tryConn + 1) { t with dials := t.dials + 1 } (by omega) (by omega)
        simp only at hc hlo hhi hslo hshi
        exact ⟨r, t1, h, hc, by omega, by omega, hslo, hshi⟩

/-- One call of `sendAppendLogEntryToPeer` returns false, after at least one
and at most 3 dials and at most 3 sends. -/
theorem sendAppendLogEntryToPeer_spec (net : Net) (fuel : Nat) (t : Trace)
    (hfuel : 3 ≤ fuel) :
    ∃ t1, sendAppendLogEntryToPeer net fuel t = some (false, t1) ∧
      t1.calls = t.calls + 1 ∧ t.dials < t1.dials ∧ t1.dials ≤ t.dials + 3 ∧
      t.sends ≤ t1.sends ∧ t1.sends ≤ t.sends + 3 := by
  obtain ⟨r, t1, h, hc, hlo, hhi, hslo, hshi⟩ :=
    connLoop_spec net fuel fuel 0 { t with calls := t.calls + 1 } hfuel (by omega)
      (by omega)
  simp only at hc hlo hhi hslo hshi
  unfold sendAppendLogEntryToPeer
  rw [h]
  exact ⟨t1, rfl, hc, hlo, by omega, hslo, hshi⟩

/-- The goroutine of one peer ends after exactly `3 - tryCall` calls of
`sendAppendLogEntryToPeer`. -/
theorem retryLoop_spec (net : Net) (inner fuel tryCall : Nat) (t : Trace)
    (hinner : 3 ≤ inner) (htry : tryCall < 3) (hfuel : 3 ≤ fuel + tryCall) :
    ∃ t1, retryLoop net inner fuel tryCall t = some t1 ∧
      t1.calls + tryCall = t.calls + 3 ∧
      t.dials + 3 ≤ t1.dials + tryCall ∧ t1.dials + 3 * tryCall ≤ t.dials + 9 ∧
      t1.sends + 3 * tryCall ≤ t.sends + 9 := by
  induction fuel generalizing tryCall t with
  | zero => omega
  | succ fuel ih =>
    obtain ⟨t2, h, hc, hlo, hhi, hslo, hshi⟩ :=
      sendAppendLogEntryToPeer_spec net inner t hinner
    simp only [retryLoop, h]
    by_cases h3 : tryCall + 1 = 3
    · simp only [h3, if_true]
      exact ⟨t2, rfl, by omega, by omega, by omega, by omega⟩
    · simp only [h3, if_false]
      obtain ⟨t1, h1, hc1, hlo1, hhi1, hs1⟩ := ih (tryCall + 1) t2 (by omega) (by omega)
      exact ⟨t1, h1, by omega, by omega, by omega, by omega⟩

/-- C17, as stated, fails on the number of connection attempts: on a transport
where every dial fails, each call of `sendAppendLogEntryToPeer` calls
`getConn` 3 times before it gives up, and the goroutine makes 3 calls, so the
peer sees 9 connection attempts (and no send), whatever bound of at least 3
iterations the loops are followed with. -/
theorem C17_phase2_dispatch_counterexample :
    sendAppendLogEntryToPeer netDown 3 trace0 = some (false, ⟨1, 3, 0, 0⟩) ∧
      retryLoop netDown 3 3 0 trace0 = some ⟨3, 9, 0, 0⟩ ∧
      retryLoop netDown 5 7 0 trace0 = some ⟨3, 9, 0, 0⟩ := by
  decide

/-- C17, amended: for every behaviour of the transport the goroutine of a peer
ends (each of its three nested loops within 3 iterations), after at most 3
calls of `sendAppendLogEntryToPeer`; a call makes at most 3 connection
attempts and at most 3 send attempts, so the peer sees at most 9 connection
attempts and at most 9 `APPEND_LOG_ENTRY` send attempts for the log id. -/
theorem C17_phase2_dispatch_amended (net : Net) (inner fuel : Nat) (hinner : 3 ≤ inner)
    (hfuel : 3 ≤ fuel) :
    (∃ t, retryLoop net inner fuel 0 trace0 = some t ∧
      t.calls ≤ 3 ∧ t.dials ≤ 9 ∧ t.sends ≤ 9) ∧
    (∀ t0, ∃ t1, sendAppendLogEntryToPeer net inner t0 = some (false, t1) ∧
      t1.calls = t0.calls + 1 ∧ t1.dials ≤ t0.dials + 3 ∧ t1.sends ≤ t0.sends + 3) := by
  constructor
  · obtain ⟨t, h, hc, -, hd, hs⟩ :=
      retryLoop_spec net inner fuel 0 trace0 hinner (by omega) (by omega)
    simp only [trace0] at hc hd hs
    exact ⟨t, h, by omega, by omega, by omega⟩
  · intro t0
    obtain ⟨t1, h, hc, -, hd, -, hs⟩ := sendAppendLogEntryToPeer_spec net inner t0 hinner
    exact ⟨t1, h, hc, hd, hs⟩

/-- C17, amended, at concrete inputs: on a transport where dials and sends
succeed the goroutine ends after 3 connection attempts and 9 sends; where the
first two dials of every call fail, after 9 connection attempts and 9 sends. -/
theorem C17_phase2_dispatch_amended_witness :
    (∃ t, retryLoop netUp 3 3 0 trace0 = some t ∧
      t.calls ≤ 3 ∧ t.dials ≤ 9 ∧ t.sends ≤ 9) ∧
    retryLoop netUp 3 3 0 trace0 = some ⟨3, 3, 9, 0⟩ ∧
    retryLoop { netUp with dial := fun k => k % 3 == 2 } 3 3 0 trace0 =
      some ⟨3, 9, 9, 0⟩ :=
  ⟨(C17_phase2_dispatch_amended netUp 3 3 (by decide) (by decide)).1, by decide,
    by decide⟩

/-- The goroutine of one peer is three calls of `sendAppendLogEntryToPeer` in
a row, no fewer and no more. -/
theorem retryLoop_eq_threeCalls (net : Net) (inner fuel : Nat) (t : Trace)
    (hinner : 3 ≤ inner) (hfuel : 3 ≤ fuel) :
    retryLoop net inner fuel 0 t = threeCalls net inner t ∧
      ∃ t1 t2 t3, sendAppendLogEntryToPeer net inner t = some (false, t1) ∧
        sendAppendLogEntryToPeer net inner t1 = some (false, t2) ∧
        sendAppendLogEntryToPeer net inner t2 = some (false, t3) ∧
        retryLoop net inner fuel 0 t = some t3 := by
  obtain ⟨t1, h1, -⟩ := sendAppendLogEntryToPeer_spec net inner t hinner
  obtain ⟨t2, h2, -⟩ := sendAppendLogEntryToPeer_spec net inner t1 hinner
  obtain ⟨t3, h3, -⟩ := sendAppendLogEntryToPeer_spec net inner t2 hinner
  obtain ⟨k, rfl⟩ : ∃ k, fuel = k + 3 := ⟨fuel - 3, by omega⟩
  have hrun : retryLoop net inner (k + 3) 0 t = some t3 := by
    simp [retryLoop, h1, h2, h3]
  have hthree : threeCalls net inner t = some t3 := by
    simp [threeCalls, h1, h2, h3]
  exact ⟨by rw [hrun, hthree], t1, t2, t3, h1, h2, h3, hrun⟩

/-- C18: `sendAppendLogEntryToPeer` returns false for every behaviour of the
transport, also when its variable `result` has become true because the peer
answered RESPONSE; the goroutine of a peer therefore never leaves its retry
loop early: it is exactly three calls of `sendAppendLogEntryToPeer` in a row,
and `sendAppendLogEntryToPeers` runs one such goroutine for every ALIVE peer
and none for the others. -/
theorem C18_append_peer_returns_false (net : Net) (inner fuel : Nat) (hinner : 3 ≤ inner)
    (hfuel : 3 ≤ fuel) :
    (∀ t0, ∃ t1, sendAppendLogEntryToPeer net inner t0 = some (false, t1)) ∧
    (∀ k t0 r t1, sendAppendLogEntryToPeer net k t0 = some (r, t1) → r = false) ∧
    (∃ t, retryLoop net inner fuel 0 trace0 = some t ∧ t.calls = 3) ∧
    (∀ (n : Node) (nets : String → Net),
      (sendAppendLogEntryToPeers n nets fuel).map Prod.fst =
        (n.Peers.filter fun p => p.Status = PeerStatus.gSTATUS_ALIVE).map
          (fun p => p.Ip) ∧
      ∀ x ∈ sendAppendLogEntryToPeers n nets fuel, ∃ t, x.2 = some t ∧ t.calls = 3) ∧
    (∀ t0, ∃ t1 t2 t3, sendAppendLogEntryToPeer net inner t0 = some (false, t1) ∧
      sendAppendLogEntryToPeer net inner t1 = some (false, t2) ∧
      sendAppendLogEntryToPeer net inner t2 = some (false, t3) ∧
      retryLoop net inner fuel 0 t0 = some t3 ∧
      t1.calls = t0.calls + 1 ∧ t2.calls = t0.calls + 2 ∧ t3.calls = t0.calls + 3) ∧
    (∀ t0, retryLoop net inner fuel 0 t0 = threeCalls net inner t0) ∧
    (∀ (n : Node) (nets : String → Net),
      sendAppendLogEntryToPeers n nets fuel =
        (n.Peers.filter fun p => p.Status = PeerStatus.gSTATUS_ALIVE).map
          (fun p => (p.Ip, threeCalls (nets p.Ip) fuel trace0))) := by
  refine ⟨?_, ?_, ?_, ?_, ?_, ?_, ?_⟩
  · intro t0
    obtain ⟨t1, h, -⟩ := sendAppendLogEntryToPeer_spec net inner t0 hinner
    exact ⟨t1, h⟩
  · intro k t0 r t1 h
    unfold sendAppendLogEntryToPeer at h
    cases hc : connLoop net k k 0 { t0 with calls := t0.calls + 1 } with
    | none => rw [hc] at h; exact absurd h (by simp)
    | some p =>
      rw [hc] at h
      simp only [Option.some.injEq, Prod.mk.injEq] at h
      exact h.1.symm
  · obtain ⟨t, h, hc, -⟩ :=
      retryLoop_spec net inner fuel 0 trace0 hinner (by omega) (by omega)
    simp only [trace0] at hc
    exact ⟨t, h, by omega⟩
  · intro n nets
    constructor
    · simp [sendAppendLogEntryToPeers, List.map_map, Function.comp]
    · intro x hx
      simp only [sendAppendLogEntryToPeers, List.mem_map] at hx
      obtain ⟨p, -, rfl⟩ := hx
      obtain ⟨t, h, hc, -⟩ :=
        retryLoop_spec (nets p.Ip) fuel fuel 0 ⟨0, 0, 0, 0⟩ hfuel (by omega) (by omega)
      exact ⟨t, h, by simp only at hc; omega⟩
  · intro t0
    obtain ⟨-, t1, t2, t3, h1, h2, h3, hrun⟩ :=
      retryLoop_eq_threeCalls net inner fuel t0 hinner hfuel
    obtain ⟨s1, g1, c1, -⟩ := sendAppendLogEntryToPeer_spec net inner t0 hinner
    obtain ⟨s2, g2, c2, -⟩ := sendAppendLogEntryToPeer_spec net inner t1 hinner
    obtain ⟨s3, g3, c3, -⟩ := sendAppendLogEntryToPeer_spec net inner t2 hinner
    rw [h1] at g1
    rw [h2] at g2
    rw [h3] at g3
    simp only [Option.some.injEq, Prod.mk.injEq, true_and] at g1 g2 g3
    subst g1 g2 g3
    exact ⟨t1, t2, t3, h1, h2, h3, hrun, c1, by omega, by omega⟩
  · intro t0
    exact (retryLoop_eq_threeCalls net inner fuel t0 hinner hfuel).1
  · intro n nets
    unfold sendAppendLogEntryToPeers
    apply List.map_congr_left
    intro p _
    rw [(retryLoop_eq_threeCalls (nets p.Ip) fuel fuel ⟨0, 0, 0, 0⟩ hfuel hfuel).1]
    rfl

/-- C18 at a concrete input: on a transport where `sendMsg` returns an error
and the peer's RESPONSE is read, the loops end with `result` true after one
send, the function still returns false, and the goroutine makes 3 calls, each
with one dial, one send and one receive. -/
theorem C18_append_peer_returns_false_witness :
    connLoop netErrReply 3 3 0 ⟨1, 0, 0, 0⟩ = some (true, ⟨1, 1, 1, 1⟩) ∧
      sendAppendLogEntryToPeer netErrReply 3 trace0 = some (false, ⟨1, 1, 1, 1⟩) ∧
      (∃ t, retryLoop netErrReply 3 3 0 trace0 = some t ∧ t.calls = 3) ∧
      retryLoop netErrReply 3 3 0 trace0 = some ⟨3, 3, 3, 3⟩ :=
  ⟨by decide, by decide,
    (C18_append_peer_returns_false netErrReply 3 3 (by decide) (by decide)).2.2.1,
    ((C18_append_peer_returns_false netErrReply 3 3 (by decide) (by decide)).2.2.2.2.2.1
      trace0).trans (by decide)⟩

/-! ## Claim on the monotony of LastLogId -/

theorem saveLogEntry_LastLogId (n n1 : Node) (e : LogEntry)
    (h : saveLogEntry n e = some n1) : n1.LastLogId = max n.LastLogId e.Id := by
  unfold saveLogEntry at h
  split at h
  · next hlt =>
    simp only [Option.some.injEq] at h
    rw [← h]
    exact (max_eq_left (le_of_lt hlt)).symm
  · next hge =>
    cases hd : applyItems n.DataMap e with
    | none => rw [hd] at h; exact absurd h (by simp)
    | some d =>
      rw [hd] at h
      simp only [Option.some.injEq] at h
      rw [← h]
      exact (max_eq_right (not_lt.1 hge)).symm

theorem batchLoop_LastLogId (array : List LogEntry) (n n1 : Node)
    (h : batchLoop n array = some n1) : n.LastLogId ≤ n1.LastLogId := by
  induction array generalizing n with
  | nil =>
    simp only [batchLoop, Option.some.injEq] at h
    rw [h]
  | cons v rest ih =>
    simp only [batchLoop] at h
    split at h
    · cases hs : saveLogEntry { n with LogList := v :: n.LogList } v with
      | none => rw [hs] at h; exact absurd h (by simp)
      | some n2 =>
        rw [hs] at h
        have h2 := saveLogEntry_LastLogId _ n2 v hs
        have h3 := ih n2 h
        simp only at h2
        exact le_trans (by rw [h2]; exact le_max_left _ _) h3
    · exact ih n h

theorem aliasPushed_LastLogId (sem : LoopVar) (old array : List LogEntry) (n1 : Node) :
    (aliasPushed sem old array n1).LastLogId = n1.LastLogId := by
  unfold aliasPushed
  split <;> rfl

/-- C19: `LastLogId` never decreases.  Whenever `saveLogEntry` returns, the new
`LastLogId` is the maximum of the old one and the id of the entry; whenever
`onMsgAppendLogEntry`, `updateDataFromRemoteNode` or `onMsgReplDataSet`
returns, the new `LastLogId` is at least the old one.  (A run that panics in
`saveLogEntry` does so before `setLastLogId` is reached.) -/
theorem C19_LastLogId_monotone (n : Node) :
    (∀ e n1, saveLogEntry n e = some n1 →
      n1.LastLogId = max n.LastLogId e.Id ∧ n.LastLogId ≤ n1.LastLogId) ∧
    (∀ msg n1 r, onMsgAppendLogEntry n msg = some (n1, r) → n.LastLogId ≤ n1.LastLogId) ∧
    (∀ c sem msg n1, updateDataFromRemoteNode c sem n msg = some n1 →
      n.LastLogId ≤ n1.LastLogId) ∧
    (∀ c msg env n1 r, onMsgReplDataSet c n msg env = some (n1, r) →
      n.LastLogId ≤ n1.LastLogId) := by
  refine ⟨?_, ?_, ?_, ?_⟩
  · intro e n1 h
    have hm := saveLogEntry_LastLogId n n1 e h
    exact ⟨hm, by rw [hm]; exact le_max_left _ _⟩
  · intro msg n1 r h
    unfold onMsgAppendLogEntry at h
    cases hget : n.UncommittedLogs.Get msg.Body with
    | none =>
      rw [hget] at h
      simp only [Option.some.injEq, Prod.mk.injEq] at h
      rw [← h.1]
    | some e =>
      rw [hget] at h
      simp only at h
      cases hs : saveLogEntry { n with LogList := e :: n.LogList } e with
      | none => rw [hs] at h; exact absurd h (by simp)
      | some n2 =>
        rw [hs] at h
        simp only [Option.some.injEq, Prod.mk.injEq] at h
        have hm := saveLogEntry_LastLogId _ n2 e hs
        simp only at hm
        rw [← h.1]
        show n.LastLogId ≤ n2.LastLogId
        rw [hm]
        exact le_max_left _ _
  · intro c sem msg n1 h
    unfold updateDataFromRemoteNode at h
    split at h
    · cases hdec : c.decodeBatch msg.Body with
      | none =>
        rw [hdec] at h
        simp only [Option.some.injEq] at h
        rw [← h]
      | some array =>
        rw [hdec] at h
        simp only at h
        cases hl : batchLoop n array with
        | none => rw [hl] at h; exact absurd h (by simp)
        | some n2 =>
          rw [hl] at h
          simp only [Option.some.injEq] at h
          rw [← h, aliasPushed_LastLogId]
          exact batchLoop_LastLogId array n n2 hl
    · simp only [Option.some.injEq] at h
      rw [← h]
  · intro c msg env n1 r h
    rcases onMsgReplDataSet_cases c n msg env n1 r h with
      ⟨-, rfl, -⟩ | ⟨-, -, items, -, -, hs⟩
    · exact le_refl _
    · have hm := saveLogEntry_LastLogId _ n1 _ hs
      simp only at hm
      rw [hm]
      exact le_max_left _ _

/-- C19 at concrete inputs: saving entry 7 on the empty follower `node0` puts
`LastLogId` at 7, and `APPEND_LOG_ENTRY` for the stale entry 3 on `nodeStale`
leaves it at 5. -/
theorem C19_LastLogId_monotone_witness :
    (∀ n1, saveLogEntry node0 entrySet7 = some n1 → n1.LastLogId = 7) ∧
      nodeStale.LastLogId ≤ nodeStaleAfter.LastLogId :=
  ⟨fun n1 h => ((C19_LastLogId_monotone node0).1 entrySet7 n1 h).1.trans (by decide),
    (C19_LastLogId_monotone nodeStale).2.1 msgAppend3 nodeStaleAfter
      Head.gMSG_REPL_RESPONSE rfl⟩

end Gluster
